import Mathlib

/-!
Verification of the reconciliation engine of a GitHub-to-Confluence
publishing tool.

The development is a shallow embedding of the three Python source files
`main.py`, `pagesController.py` and `pagesPublisher.py`.  Network calls to
the Confluence page store are modelled by explicit response oracles
(`Store`, `BatchResp`, `FetchResp`, delete-status functions); every modelled
function additionally returns the list of observable wire events (`Ev`,
`PEv`) it performs, so that temporal claims (ordering of calls, absence of
delete calls) can be stated over traces.  Python strings are modelled by
`String`, with Python's `in` / `replace` / `strip` / `lower` / `endswith`
operations re-implemented over the character list `String.data` so that
they are executable by the kernel.  Floating point percentages are modelled
by exact rational arithmetic (`ℚ`).
-/

set_option linter.unusedVariables false

namespace GCP

/-! ### Python string primitives -/

/-- Scan for `pat` occurring as a contiguous substring (Python `pat in s`). -/
def containsList (pat : List Char) : List Char → Bool
  | [] => pat.isEmpty
  | c :: rest => pat.isPrefixOf (c :: rest) || containsList pat rest

/-- Python `pat in s`. -/
def pyContains (s pat : String) : Bool := containsList pat.data s.data

/-- Left-to-right removal of every non-overlapping occurrence of `pat`
(Python `s.replace(pat, "")`). -/
def removeAllList (pat : List Char) (l : List Char) : List Char :=
  if h : pat = [] then l
  else
    match l with
    | [] => []
    | c :: rest =>
      if pat.isPrefixOf (c :: rest) then removeAllList pat ((c :: rest).drop pat.length)
      else c :: removeAllList pat rest
termination_by l.length
decreasing_by
  · simp only [List.length_drop, List.length_cons]
    have : pat.length > 0 := List.length_pos.mpr h
    omega
  · simp

/-- Python `s.replace(pat, "")`. -/
def pyRemoveAll (s pat : String) : String := ⟨removeAllList pat.data s.data⟩

/-- Drop leading and trailing whitespace (Python `s.strip()`). -/
def trimList (l : List Char) : List Char :=
  ((l.dropWhile Char.isWhitespace).reverse.dropWhile Char.isWhitespace).reverse

/-- Python `s.strip()`. -/
def pyStrip (s : String) : String := ⟨trimList s.data⟩

/-- Python `s.lower()`. -/
def pyLower (s : String) : String := ⟨s.data.map Char.toLower⟩

/-- Python `s.endswith(pat)`. -/
def pyEndsWith (s pat : String) : Bool := pat.data.isSuffixOf s.data

/-- `filename.lower().endswith('.md')` — the markdown test used both by
`buildExpectedPagesSet` and by `publishFolder`'s file collection. -/
def isMdName (n : String) : Bool := pyEndsWith (pyLower n) ".md"

/-- Canonical title of an entry given as the list of path components of its
path relative to the publish root: `os.path.relpath` joins the components
with the platform separator and the sources immediately normalize the
separator to `/` (`rel_path.replace(os.sep, '/')`), which amounts to
joining the components with `/`. -/
def canonicalTitle : List String → String
  | [] => ""
  | [n] => n
  | n :: m :: rest => n ++ "/" ++ canonicalTitle (m :: rest)

/-! ### Remote page store: data and response oracles -/

/-- A page as recovered from a search / lookup response:
`{'id': ..., 'version': ..., 'title': ...}`. -/
structure PageInfo where
  id : Nat
  version : Nat
  title : String
deriving DecidableEq, Repr

/-- Response to one CQL search attempt: HTTP 200 with a result list, or a
non-200 status / raised exception (both handled identically by the
source's retry loop). -/
inductive SearchResp where
  | ok : List PageInfo → SearchResp
  | fail : SearchResp
deriving DecidableEq

/-- Response to a `PUT content/{id}` update: HTTP 200, a non-200 status
with a parsed error message, or a raised exception. -/
inductive UpdResp where
  | ok : UpdResp
  | err : String → Nat → UpdResp
  | exc : String → UpdResp
deriving DecidableEq

/-- Response to a `POST content/` creation: HTTP 200 carrying an id, an
unparseable body, or a parsed failure with message and status code. -/
inductive CreateResp where
  | ok : Nat → CreateResp
  | badJson : Nat → CreateResp
  | err : String → Nat → CreateResp
deriving DecidableEq

/-- The `status_code` field of a failure dict: a numeric HTTP status, the
literal string `'exception'`, or absent (read back as `'N/A'`). -/
inductive StatusCode where
  | num : Nat → StatusCode
  | exception : StatusCode
  | na : StatusCode
deriving DecidableEq, Repr

/-- Result dict of the upsert functions: `{'success': True, 'page_id': ...,
'operation': 'created'|'updated'}` or `{'success': False, 'error': ...,
'status_code': ...}`. -/
inductive PubResult where
  | success : Nat → String → PubResult
  | failure : String → StatusCode → PubResult
deriving DecidableEq, Repr

/-- Observable wire events of the controller functions. -/
inductive Ev where
  | search : String → Nat → Nat → Ev      -- searched title, ancestor id, attempt index
  | sleep : Nat → Ev                      -- time.sleep(seconds)
  | directLookup : String → Nat → Ev      -- looked-up title, call index
  | create : String → Nat → Ev            -- created title, ancestor id
  | update : Nat → Nat → Ev               -- page id, version number sent
  | delete : Nat → Ev                     -- page id
deriving DecidableEq, Repr

/-- Response oracle for one upsert: per-attempt search responses, the
creation response, the per-call direct-lookup responses (`none` models
"no match" as well as a failed request, exactly as
`findPageByTitleDirect` collapses both to `None`), and the update
response per page id. -/
structure Store where
  search : Nat → SearchResp
  create : CreateResp
  direct : Nat → Option PageInfo
  update : Nat → UpdResp

/-- The configuration values the controller reads:
`confluence_parent_page_id` and `confluence_search_pattern`. -/
structure Config where
  parentPageId : Nat
  searchPattern : String

/-! ### pagesController.findPageByTitle -/

def retryDelays : List Nat := [0, 2, 4]

def maxRetries : Nat := 3

/-- `search_title = title + "  " + str(CONFIG["confluence_search_pattern"])`. -/
def searchTitle (cfg : Config) (title : String) : String :=
  title ++ "  " ++ cfg.searchPattern

/-- `parent_id_to_use`: the configured root when `parentPageID is None`,
otherwise the given id. -/
def ancestorOf (cfg : Config) (parentPageID : Option Nat) : Nat :=
  match parentPageID with
  | none => cfg.parentPageId
  | some p => p

/-- The retry loop of `findPageByTitle`, with `rem` the number of attempts
still allowed (`maxRetries - attempt`).  Attempt 0 runs without delay;
attempt `i > 0` first sleeps `retry_delays[i]`.  A 200 response with a
non-empty result list returns its first page; an empty result list, a
non-200 status or an exception retries while attempts remain and
otherwise yields `none`.  (The version-number JSON fallback of the source
is abstracted into `PageInfo.version`.) -/
def findFrom (sr : Nat → SearchResp) (q : String) (anc : Nat) :
    Nat → Nat → Option PageInfo × List Ev
  | _, 0 => (none, [])
  | attempt, rem + 1 =>
    let evs := if attempt == 0 then [Ev.search q anc 0]
               else [Ev.sleep (retryDelays.getD attempt 0), Ev.search q anc attempt]
    match sr attempt with
    | SearchResp.ok (p :: _) => (some p, evs)
    | SearchResp.ok [] =>
      if rem > 0 then
        ((findFrom sr q anc (attempt + 1) rem).1, evs ++ (findFrom sr q anc (attempt + 1) rem).2)
      else (none, evs)
    | SearchResp.fail =>
      if rem > 0 then
        ((findFrom sr q anc (attempt + 1) rem).1, evs ++ (findFrom sr q anc (attempt + 1) rem).2)
      else (none, evs)

/-- `findPageByTitle(title, parentPageID, ...)`. -/
def findPageByTitle (sr : Nat → SearchResp) (cfg : Config) (title : String)
    (parentPageID : Option Nat) : Option PageInfo × List Ev :=
  findFrom sr (searchTitle cfg title) (ancestorOf cfg parentPageID) 0 maxRetries

/-! ### pagesController.updatePage -/

/-- `updatePage(page_id, title, content, version, ...)`: a single PUT with
`version + 1` in the payload; 200 yields
`{'success': True, 'operation': 'updated'}`, a non-200 status surfaces the
parsed message and status code, an exception surfaces
`status_code = 'exception'`.  There is no retry. -/
def updatePage (ur : Nat → UpdResp) (page_id : Nat) (title content : String)
    (version : Nat) : PubResult × List Ev :=
  (match ur page_id with
   | UpdResp.ok => PubResult.success page_id "updated"
   | UpdResp.err m c => PubResult.failure m (StatusCode.num c)
   | UpdResp.exc m => PubResult.failure m StatusCode.exception,
   [Ev.update page_id (version + 1)])

/-! ### pagesController.createNewPage -/

/-- The duplicate-title error class is detected by a substring match on the
lowered error message: `'already exists' in error_message.lower() or
'same title' in error_message.lower()`. -/
def isDuplicateTitleMsg (m : String) : Bool :=
  pyContains (pyLower m) "already exists" || pyContains (pyLower m) "same title"

/-- `createNewPage(title, content, parentPageID, ...)`: one POST; on a
parsed failure whose message is in the duplicate-title class, fall back to
a direct by-title lookup (`findPageByTitleDirect`, modelled by the
`Store.direct` oracle, call index 0); if it finds a page, update it
instead; otherwise sleep 3 seconds and retry the direct lookup exactly
once more (call index 1); if that succeeds, update; otherwise (and for
every other failure) surface the creation failure. -/
def createNewPage (store : Store) (cfg : Config) (title content : String)
    (parentPageID : Option Nat) : PubResult × List Ev :=
  let anc := ancestorOf cfg parentPageID
  match store.create with
  | CreateResp.ok pageId => (PubResult.success pageId "created", [Ev.create title anc])
  | CreateResp.badJson code =>
    (PubResult.failure ("Invalid JSON response from Confluence (status " ++ toString code ++ ")")
       StatusCode.na,
     [Ev.create title anc])
  | CreateResp.err msg code =>
    if isDuplicateTitleMsg msg then
      match store.direct 0 with
      | some p =>
        let u := updatePage store.update p.id title content p.version
        (u.1, Ev.create title anc :: Ev.directLookup title 0 :: u.2)
      | none =>
        match store.direct 1 with
        | some p =>
          let u := updatePage store.update p.id title content p.version
          (u.1, Ev.create title anc :: Ev.directLookup title 0 :: Ev.sleep 3 ::
                Ev.directLookup title 1 :: u.2)
        | none =>
          (PubResult.failure msg (StatusCode.num code),
           [Ev.create title anc, Ev.directLookup title 0, Ev.sleep 3, Ev.directLookup title 1])
    else
      (PubResult.failure msg (StatusCode.num code), [Ev.create title anc])

/-! ### pagesController.createPage (the upsert) -/

/-- The autogeneration warning banner prepended to every page body. -/
def banner : String :=
  "<p style=\"background-color:#e7be17;\">This page is auto-generated from OHFY-Core-AI repository. Do not edit manually - changes will be overwritten. <b><a href=\"https://github.com/ohanafy/OHFY-Core-AI\">View source on GitHub</a></b></p>"

/-- `createPage(title, content, parentPageID, ...)`: search for the
suffixed title (with retries); update when found, create when not. -/
def createPage (store : Store) (cfg : Config) (title content : String)
    (parentPageID : Option Nat) : PubResult × List Ev :=
  let full_title := searchTitle cfg title
  let full_content := banner ++ content
  let f := findPageByTitle store.search cfg title parentPageID
  match f.1 with
  | some p =>
    let u := updatePage store.update p.id full_title full_content p.version
    (u.1, f.2 ++ u.2)
  | none =>
    let c := createNewPage store cfg full_title full_content parentPageID
    (c.1, f.2 ++ c.2)

/-! ### pagesController.searchPages (paginated listing of managed pages) -/

/-- Response to one page of the paginated CQL listing: HTTP 200 with a
batch of page ids and the presence of a `_links.next` continuation, or a
non-200 status / exception, on which the loop breaks keeping what it
already accumulated. -/
inductive BatchResp where
  | ok : List Nat → Bool → BatchResp
  | fail : BatchResp
deriving DecidableEq

def searchPagesGo : List BatchResp → List Nat → List Nat
  | [], acc => acc
  | BatchResp.fail :: _, acc => acc
  | BatchResp.ok ids next :: rest, acc =>
    if next then searchPagesGo rest (acc ++ ids) else acc ++ ids

/-- `searchPages(...)`: accumulate page ids batch by batch, following the
continuation link until absent, stopping early on a failed request. -/
def searchPages (batches : List BatchResp) : List Nat := searchPagesGo batches []

/-! ### pagesController.deletePages -/

/-- `deletePages(pagesIDList, ...)`: one DELETE per id, in list order.  The
`delOk` oracle tells whether the store answered 204 for an id; the source
only logs that answer.  The local `deletedPages` accumulator is declared,
never appended to, and returned — so the function returns the empty list
no matter what the store answered. -/
def deletePages (delOk : Nat → Bool) : List Nat → List Nat × List Ev
  | [] => ([], [])
  | p :: ps =>
    let r := deletePages delOk ps
    (r.1, Ev.delete p :: r.2)

/-- The count the spec asks `reconcile` to return: the number of rows for
which the store confirmed deletion (status 204).  Stated from the spec's
words, for comparison with what the code actually returns. -/
def confirmedDeletions (delOk : Nat → Bool) (ids : List Nat) : Nat :=
  (ids.filter delOk).length

/-! ### pagesController.cleanupOrphanPages -/

/-- Response to the per-page `GET content/{id}` used to recover the title:
the title string on 200, or a failure / exception, on which the loop
`continue`s to the next page id. -/
inductive FetchResp where
  | ok : String → FetchResp
  | fail : FetchResp
deriving DecidableEq

/-- One entry of the `orphan_details` list. -/
structure OrphanDetail where
  id : Nat
  title : String
  base_title : String
deriving DecidableEq, Repr

/-- Recover the base title from a full remote title: if the search pattern
occurs in the title, remove every occurrence of `"  " + pattern` and strip
whitespace, otherwise keep the title unchanged. -/
def stripPattern (cfg : Config) (full_title : String) : String :=
  if pyContains full_title cfg.searchPattern then
    pyStrip (pyRemoveAll full_title ("  " ++ cfg.searchPattern))
  else full_title

/-- The orphan-identification loop of `cleanupOrphanPages`: for each page
id in order, fetch the title (skipping the id on a failed fetch), recover
the base title, and collect the id and its detail row when the base title
is not in the expected set. -/
def orphanScan (cfg : Config) (expected : List String) (tOf : Nat → FetchResp) :
    List Nat → List Nat × List OrphanDetail
  | [] => ([], [])
  | p :: ps =>
    let rest := orphanScan cfg expected tOf ps
    match tOf p with
    | FetchResp.fail => rest
    | FetchResp.ok full =>
      let base := stripPattern cfg full
      if expected.contains base then rest
      else (p :: rest.1, ⟨p, full, base⟩ :: rest.2)

/-- The dict returned by `cleanupOrphanPages`.  `skipped = none` models the
early return `{'deleted_count': 0, 'orphans': []}` in which the key is
absent. -/
structure CleanupResult where
  deleted_count : Nat
  orphans : List OrphanDetail
  skipped : Option Bool
  reason : Option String
deriving DecidableEq, Repr

/-- A full run of `cleanupOrphanPages`: the returned dict, the wire events
issued after identification (the delete calls), and the value of the local
`orphan_percentage`, `none` when the branch computing it is never
reached. -/
structure CleanupRun where
  result : CleanupResult
  events : List Ev
  percentage : Option ℚ
deriving DecidableEq

/-- `cleanupOrphanPages(expected_pages_set, ...)`: list all managed pages
via the paginated search; return immediately when none are found; identify
orphans; when at least one orphan exists compute
`orphan_percentage = orphan_count / total_pages * 100` and skip the whole
deletion when it exceeds 20; otherwise delete the orphan ids and return
`deleted_count = orphan_count` (the identified count — the value returned
by `deletePages` is captured in `deleted` but not used). -/
def cleanupOrphanPages (cfg : Config) (expected : List String) (tOf : Nat → FetchResp)
    (delOk : Nat → Bool) (batches : List BatchResp) : CleanupRun :=
  let all_pages := searchPages batches
  if all_pages.isEmpty then
    { result := { deleted_count := 0, orphans := [], skipped := none, reason := none },
      events := [], percentage := none }
  else
    let scan := orphanScan cfg expected tOf all_pages
    let orphan_count := scan.1.length
    let total_pages := all_pages.length
    if orphan_count > 0 then
      let orphan_percentage : ℚ := ((orphan_count : ℚ) / (total_pages : ℚ)) * 100
      if orphan_percentage > 20 then
        { result := { deleted_count := 0, orphans := scan.2, skipped := some true,
                      reason := some "Safety threshold exceeded" },
          events := [], percentage := some orphan_percentage }
      else
        let d := deletePages delOk scan.1
        { result := { deleted_count := orphan_count, orphans := scan.2, skipped := some false,
                      reason := none },
          events := d.2, percentage := some orphan_percentage }
    else
      { result := { deleted_count := 0, orphans := [], skipped := some false, reason := none },
        events := [], percentage := none }

/-- The orphan set as the spec words it: the managed remote pages whose
recovered canonical title is absent from the expected set (`R \ E`).
Stated for comparison with the ids `orphanScan` collects. -/
def specOrphans (cfg : Config) (expected : List String) (titleOf : Nat → String)
    (pages : List Nat) : List Nat :=
  pages.filter (fun p => !(expected.contains (stripPattern cfg (titleOf p))))

/-! ### main.py — the reachable top level

After configuration and argument parsing, the module top level runs the
"TEMPORARY clean slate migration" block: it calls `searchPages`, passes
every found page id to `deletePages`, and then calls `sys.exit(0)`.
Everything below that call — the `if len(publish_errors) == 0` gate around
`cleanupOrphanPages` and the summary report — is unreachable on every run
(and refers to names such as `expected_pages` that the reachable code never
defines). -/

/-- The reachable behaviour of `main.py`: exit code and wire events. -/
def mainMigrationRun (delOk : Nat → Bool) (batches : List BatchResp) : Nat × List Ev :=
  let pages := searchPages batches
  let d := deletePages delOk pages
  (0, d.2)

/-! ### pagesPublisher — result aggregator and summary -/

/-- One entry of the `publish_errors` list:
`{'path': ..., 'type': 'file'|'directory', 'error': ..., 'status_code': ...}`.
Paths are recorded here in canonical (root-relative) form; the constant
absolute prefix of the publish root is elided. -/
structure ErrorInfo where
  path : String
  type : String
  error : String
  status_code : StatusCode
deriving DecidableEq, Repr

/-- The `PublishStats` aggregator: an error list and three counters, all
mutated under `self.lock`. -/
structure PublishStats where
  errors : List ErrorInfo
  success_count : Nat
  created_count : Nat
  updated_count : Nat
deriving DecidableEq, Repr

/-- The freshly constructed `_stats = PublishStats()`. -/
def PublishStats.init : PublishStats := ⟨[], 0, 0, 0⟩

/-- `PublishStats.add_success(operation)`. -/
def addSuccess (s : PublishStats) (operation : Option String) : PublishStats :=
  { s with
    success_count := s.success_count + 1,
    created_count := if operation = some "created" then s.created_count + 1 else s.created_count,
    updated_count := if operation = some "updated" then s.updated_count + 1 else s.updated_count }

/-- `PublishStats.add_error(error_info)`. -/
def addError (s : PublishStats) (e : ErrorInfo) : PublishStats :=
  { s with errors := s.errors ++ [e] }

/-- `success_count = 0` at module level of `pagesPublisher.py`: a plain
integer bound once when the module loads.  `main.py` imports this name by
value; nothing ever rebinds it, so the value the summary reads is the
initial `0` whatever `_stats.success_count` reaches. -/
def legacySuccessCount : Nat := 0

/-- `created_count = 0`, same frozen module-level integer. -/
def legacyCreatedCount : Nat := 0

/-- `updated_count = 0`, same frozen module-level integer. -/
def legacyUpdatedCount : Nat := 0

/-- The four counts printed by the summary report of `main.py`. -/
structure Summary where
  successful : Nat
  created : Nat
  updated : Nat
  failed : Nat
deriving DecidableEq, Repr

/-- The summary report: `success_count`, `created_count` and
`updated_count` are the imported module-level integers (frozen at 0),
while `len(publish_errors)` reads through the imported reference to the
very list object inside `_stats`, so it sees every recorded error. -/
def summaryReport (final : PublishStats) : Summary :=
  { successful := legacySuccessCount,
    created := legacyCreatedCount,
    updated := legacyUpdatedCount,
    failed := final.errors.length }

/-! ### pagesPublisher.publishFolder — the fan-out scheduler

The local tree is modelled by `PEntry`; the per-entry upsert outcome by an
oracle `uo : String → PubResult` keyed by the entry's canonical title
(titles are unique per entry, see the uniqueness theorem).  `publishFolder`
collects the directory and `.md`-file entries of a folder, phase 1 upserts
each directory container sequentially — on success recording the success
and recursing with the new page id as parent, on failure recording one
error and skipping the subtree — and phase 2 submits the folder's files to
the worker pool and joins them before returning.  The trace below is the
canonical linearization: files of one folder execute concurrently only
with each other, between their submission point and the join, so every
interleaving is a permutation of this trace inside each per-folder file
block, which moves no event across a directory-container event. -/

/-- A local entry: a directory with its children, or a file.  (Symlinked
entries, which `os.scandir`'s `is_dir`/`is_file` resolve to their targets,
are modelled as the entry kind they resolve to; symlink cycles are out of
scope.) -/
inductive PEntry where
  | dir : String → List PEntry → PEntry
  | file : String → PEntry

def entryName : PEntry → String
  | PEntry.dir n _ => n
  | PEntry.file n => n

/-- `entry.is_dir()`. -/
def isDirEntry : PEntry → Bool
  | PEntry.dir _ _ => true
  | PEntry.file _ => false

/-- `entry.is_file() and str(entry.path).lower().endswith('.md')`. -/
def isMdFileEntry : PEntry → Bool
  | PEntry.file n => isMdName n
  | PEntry.dir _ _ => false

/-- Observable events of a publish run: the upsert calls (with the title,
the parent page id passed, and the outcome the store reported) and the
aggregator mutations. -/
inductive PEv where
  | upsertDir : String → Option Nat → PubResult → PEv
  | upsertFile : String → Option Nat → PubResult → PEv
  | recordSuccess : Option String → PEv
  | recordError : ErrorInfo → PEv
deriving DecidableEq, Repr

def pubResultOk : PubResult → Bool
  | PubResult.success _ _ => true
  | PubResult.failure _ _ => false

/-- Phase 2 of `publishFolder`: the folder's markdown files, in submission
order.  `processMarkdownFile` upserts the file under the folder's page id,
then records the success (with its operation) or the error. -/
def fileEvents (uo : String → PubResult) (pre : List String) (parent : Option Nat) :
    List PEntry → List PEv
  | [] => []
  | e :: es =>
    (if isMdFileEntry e then
      let t := canonicalTitle (pre ++ [entryName e])
      match uo t with
      | PubResult.success pid op =>
        [PEv.upsertFile t parent (PubResult.success pid op), PEv.recordSuccess (some op)]
      | PubResult.failure m c =>
        [PEv.upsertFile t parent (PubResult.failure m c),
         PEv.recordError ⟨t, "file", m, c⟩]
     else []) ++ fileEvents uo pre parent es

mutual

/-- `publishFolder(folder, ..., parentPageID, ...)` on the folder whose
root-relative path is `pre`: phase 1 (directories, sequential) then
phase 2 (this folder's files). -/
def pubTree (uo : String → PubResult) (pre : List String) (parent : Option Nat)
    (children : List PEntry) : List PEv :=
  dirEvents uo pre parent children ++ fileEvents uo pre parent children

/-- Phase 1: for each directory entry in order, upsert its container page;
on success record the success and recurse into it with the assigned page
id as parent; on failure record exactly one `'directory'` error and move
to the next sibling without descending. -/
def dirEvents (uo : String → PubResult) (pre : List String) (parent : Option Nat) :
    List PEntry → List PEv
  | [] => []
  | PEntry.dir name sub :: es =>
    (let t := canonicalTitle (pre ++ [name])
     match uo t with
     | PubResult.success pid op =>
       PEv.upsertDir t parent (PubResult.success pid op) :: PEv.recordSuccess (some op) ::
         pubTree uo (pre ++ [name]) (some pid) sub
     | PubResult.failure m c =>
       [PEv.upsertDir t parent (PubResult.failure m c),
        PEv.recordError ⟨t, "directory", m, c⟩])
    ++ dirEvents uo pre parent es
  | PEntry.file _ :: es => dirEvents uo pre parent es

end

/-- Canonical titles of every entry of the forest (directories and files,
at every depth), each relative to the publish root through `pre`. -/
def allTitles (pre : List String) : List PEntry → List String
  | [] => []
  | PEntry.dir n sub :: es =>
    canonicalTitle (pre ++ [n]) :: (allTitles (pre ++ [n]) sub ++ allTitles pre es)
  | PEntry.file n :: es => canonicalTitle (pre ++ [n]) :: allTitles pre es

/-- Does the event mention title `t` (as an upsert call or a recorded
error path)? -/
def touchesTitle (t : String) : PEv → Bool
  | PEv.upsertDir t' _ _ => t' == t
  | PEv.upsertFile t' _ _ => t' == t
  | PEv.recordSuccess _ => false
  | PEv.recordError e => e.path == t

/-- Is the event an upsert call (directory container or file) for `t`? -/
def isUpsertOf (t : String) : PEv → Bool
  | PEv.upsertDir t' _ _ => t' == t
  | PEv.upsertFile t' _ _ => t' == t
  | _ => false

/-- Is the event the directory-container upsert call for `t`? -/
def isDirUpsertOf (t : String) : PEv → Bool
  | PEv.upsertDir t' _ _ => t' == t
  | _ => false

/-- Is the event the recording of a `'directory'` failure for path `t`? -/
def isDirErrOf (t : String) : PEv → Bool
  | PEv.recordError e => e.path == t && e.type == "directory"
  | _ => false

/-- Replaying the trace against the aggregator: the per-event mutation
applied where the source calls `_stats.add_success` / `_stats.add_error`.
All mutations happen under one lock, so the final aggregator state of any
interleaving is a fold of the trace (the counters are commutative). -/
def applyStats (s : PublishStats) : PEv → PublishStats
  | PEv.recordSuccess op => addSuccess s op
  | PEv.recordError e => addError s e
  | _ => s

/-- Final aggregator state of a run with trace `evs`. -/
def statsOfRun (evs : List PEv) : PublishStats := evs.foldl applyStats PublishStats.init

/-! ### pagesPublisher.buildExpectedPagesSet — the expected-set builder

`os.walk(folder)` (default `topdown=True`, `followlinks=False`) classifies
each entry with `os.path.isdir`, which follows symlinks: a symlink whose
target is a directory is listed in `dirs`, every other entry (plain files,
symlinks to files, broken symlinks) in `files` — but the walk descends
only into entries that are not symlinks.  `FsNode` therefore distinguishes
the four kinds. -/

inductive FsNode where
  | file : String → FsNode
  | dir : String → List FsNode → FsNode
  | symlinkDir : String → FsNode
  | symlinkFile : String → FsNode

def fsName : FsNode → String
  | FsNode.file n => n
  | FsNode.dir n _ => n
  | FsNode.symlinkDir n => n
  | FsNode.symlinkFile n => n

/-- Listed in the `dirs` component of the `os.walk` triple
(`os.path.isdir` follows symlinks). -/
def isWalkDir : FsNode → Bool
  | FsNode.dir _ _ => true
  | FsNode.symlinkDir _ => true
  | _ => false

/-- Listed in the `files` component of the `os.walk` triple. -/
def isWalkFile : FsNode → Bool
  | FsNode.file _ => true
  | FsNode.symlinkFile _ => true
  | _ => false

/-- The titles added for the `dirs` list of one visited directory: every
listed directory name, rel-path joined and slash-normalized. -/
def listedDirTitles (pre : List String) (children : List FsNode) : List String :=
  (children.filter isWalkDir).map (fun c => canonicalTitle (pre ++ [fsName c]))

/-- The titles added for the `files` list of one visited directory: the
entries whose name lowercases to a `.md` suffix. -/
def listedMdTitles (pre : List String) (children : List FsNode) : List String :=
  ((children.filter isWalkFile).filter (fun c => isMdName (fsName c))).map
    (fun c => canonicalTitle (pre ++ [fsName c]))

mutual

/-- One `os.walk` visit at relative path `pre`: add the listed directory
titles and markdown-file titles, then visit the subdirectories the walk
descends into. -/
def walkVisit (pre : List String) (children : List FsNode) : List String :=
  listedDirTitles pre children ++ listedMdTitles pre children ++ walkRecurse pre children

/-- Descend only into real directories (`followlinks=False`). -/
def walkRecurse (pre : List String) : List FsNode → List String
  | [] => []
  | FsNode.dir n sub :: cs => walkVisit (pre ++ [n]) sub ++ walkRecurse pre cs
  | _ :: cs => walkRecurse pre cs

end

/-- `buildExpectedPagesSet(folder)` over the root's children.  The source
returns a Python set; the model returns the added titles in walk order and
all claims are stated through membership. -/
def buildExpectedPagesSet (root : List FsNode) : List String := walkVisit [] root

/-- The expected set as the claim words it: canonical titles of every
directory reachable by the traversal and of every markdown-named file,
with symlinks (and non-markdown files) never added — only real
directories are titled and descended into; only real files are titled.
Stated from the spec's words, for comparison with
`buildExpectedPagesSet`. -/
def claimGo (pre : List String) : List FsNode → List String
  | [] => []
  | FsNode.dir n sub :: cs =>
    canonicalTitle (pre ++ [n]) :: (claimGo (pre ++ [n]) sub ++ claimGo pre cs)
  | FsNode.file n :: cs =>
    (if isMdName n then [canonicalTitle (pre ++ [n])] else []) ++ claimGo pre cs
  | FsNode.symlinkDir _ :: cs => claimGo pre cs
  | FsNode.symlinkFile _ :: cs => claimGo pre cs

/-- The claim's expected set for a root. -/
def claimExpectedSet (root : List FsNode) : List String := claimGo [] root

/-- The real (non-symlink) directories `os.walk` descends into below a
visited directory, each with its relative component path and children. -/
def visitedChildren (pre : List String) : List FsNode → List (List String × List FsNode)
  | [] => []
  | FsNode.dir n sub :: cs =>
    ((pre ++ [n], sub) :: visitedChildren (pre ++ [n]) sub) ++ visitedChildren pre cs
  | _ :: cs => visitedChildren pre cs

/-- The directories `os.walk` visits: the root and, recursively, the real
directory children of visited directories. -/
def visitedDirs (pre : List String) (children : List FsNode) : List (List String × List FsNode) :=
  (pre, children) :: visitedChildren pre children

/-- The expected set characterized through the visited directories: each
visited directory contributes the titles of its listed directory entries
and markdown-named file entries. -/
def listedExpectedSet (root : List FsNode) : List String :=
  ((visitedDirs [] root).map (fun v => listedDirTitles v.1 v.2 ++ listedMdTitles v.1 v.2)).flatten

/-! ### Concrete inputs used by witnesses and counterexamples -/

/-- Example configuration. -/
def exCfg : Config := ⟨111, "SUF"⟩

/-- Search responses: attempt 0 fails, attempt 1 finds nothing, attempt 2
finds page 5 at version 7. -/
def exSearchC3 : Nat → SearchResp
  | 0 => SearchResp.fail
  | 1 => SearchResp.ok []
  | _ => SearchResp.ok [⟨5, 7, "t"⟩]

/-- Store for the C3 witness: found on the third search attempt, the
update is rejected with a version conflict. -/
def exStoreC3 : Store :=
  { search := exSearchC3,
    create := CreateResp.ok 0,
    direct := fun _ => none,
    update := fun _ => UpdResp.err "Version conflict" 409 }

/-- Store for the C4 witness: the search finds nothing, creation fails
with a duplicate-title message, the first direct lookup finds nothing, the
second finds page 9 at version 3, and its update succeeds. -/
def exStoreC4 : Store :=
  { search := fun _ => SearchResp.ok [],
    create := CreateResp.err "A page with this title already exists" 400,
    direct := fun i => if i = 1 then some ⟨9, 3, "t"⟩ else none,
    update := fun _ => UpdResp.ok }

/-- Store for the C9 witness: every search attempt fails outright, and the
creation then succeeds. -/
def exStoreC9 : Store :=
  { search := fun _ => SearchResp.fail,
    create := CreateResp.ok 3,
    direct := fun _ => none,
    update := fun _ => UpdResp.ok }

/-- One batch listing page 42 with no continuation. -/
def exBatchesC1 : List BatchResp := [BatchResp.ok [42] false]

/-- Five managed remote pages. -/
def exBatchesC2 : List BatchResp := [BatchResp.ok [1, 2, 3, 4, 5] false]

/-- Expected set for the C2 counterexample. -/
def exExpectedC2 : List String := ["a", "b", "c", "d"]

/-- Remote titles for the C2 counterexample: pages 1–4 match the expected
set, page 5 is the single orphan (fraction exactly 20%). -/
def exTOfC2 : Nat → FetchResp
  | 1 => FetchResp.ok "a"
  | 2 => FetchResp.ok "b"
  | 3 => FetchResp.ok "c"
  | 4 => FetchResp.ok "d"
  | 5 => FetchResp.ok "old"
  | _ => FetchResp.fail

/-- Delete oracle for the C2 counterexample: the store never answers 204,
so it confirms no deletion. -/
def exDelOkC2 : Nat → Bool := fun _ => false

/-- Remote title fetch for the C10 witness: the single page matches the
expected set, so there is no orphan. -/
def exTOfC10 : Nat → FetchResp
  | 7 => FetchResp.ok "a"
  | _ => FetchResp.fail

/-- Tree for the C5 witness: a directory whose container upsert will
fail, containing one markdown file, and an empty sibling directory. -/
def exTreeC5 : List PEntry :=
  [PEntry.dir "bad" [PEntry.file "x.md"], PEntry.dir "b" []]

/-- Upsert oracle for the C5 witness: the container of `bad` fails with a
500, every other upsert succeeds. -/
def exUoC5 : String → PubResult := fun t =>
  if t = "bad" then PubResult.failure "boom" (StatusCode.num 500)
  else PubResult.success 1 "created"

/-- Upsert oracle for the C8 run: the single file is created as page 1. -/
def exUoC8 : String → PubResult := fun _ => PubResult.success 1 "created"

/-- The C8 run: publishing a root containing the single file `a.md`. -/
def exRunC8 : List PEv := pubTree exUoC8 [] none [PEntry.file "a.md"]

/-- The trace of the executed search attempts of one `findPageByTitle`
call that returned after attempt `k`: delays 0s, 2s, 4s. -/
def searchEvs (q : String) (anc : Nat) : Nat → List Ev
  | 0 => [Ev.search q anc 0]
  | 1 => [Ev.search q anc 0, Ev.sleep 2, Ev.search q anc 1]
  | _ => [Ev.search q anc 0, Ev.sleep 2, Ev.search q anc 1, Ev.sleep 4, Ev.search q anc 2]

/-- The titles of the markdown files directly inside a folder — the only
titles phase 2 of `publishFolder` upserts at that level. -/
def levelFileTitles (pre : List String) : List PEntry → List String
  | [] => []
  | e :: es =>
    (if isMdFileEntry e then [canonicalTitle (pre ++ [entryName e])] else [])
      ++ levelFileTitles pre es

/-- Character-level form of `canonicalTitle`: the path components joined
by `'/'`. -/
def joinC : List (List Char) → List Char
  | [] => []
  | [x] => x
  | x :: y :: ys => x ++ '/' :: joinC (y :: ys)

/-! ## Lemmas -/

/-- `canonicalTitle` computes the slash-join of the component character
sequences. -/
theorem canonicalTitle_data (l : List String) :
    (canonicalTitle l).data = joinC (l.map String.data) := by
  match l with
  | [] => rfl
  | [n] => rfl
  | n :: m :: rest =>
    have ih := canonicalTitle_data (m :: rest)
    simp only [canonicalTitle, joinC, List.map]
    rw [String.data_append, String.data_append, ih]
    simp only [List.append_assoc]
    rfl

/-- A slash-free prefix before the first `'/'` is determined: two
decompositions around a slash agree. -/
theorem split_at_slash (x : List Char) :
    ∀ y rest1 rest2, '/' ∉ x → '/' ∉ y →
      x ++ '/' :: rest1 = y ++ '/' :: rest2 → x = y ∧ rest1 = rest2 := by
  induction x with
  | nil =>
    intro y rest1 rest2 hx hy h
    match y with
    | [] => simpa using h
    | c :: y' =>
      simp only [List.nil_append, List.cons_append, List.cons.injEq] at h
      exact absurd (show ('/' : Char) ∈ c :: y' by
        rw [← h.1]; exact List.mem_cons_self _ _) hy
  | cons a x' ih =>
    intro y rest1 rest2 hx hy h
    match y with
    | [] =>
      simp only [List.cons_append, List.nil_append, List.cons.injEq] at h
      exact absurd (show ('/' : Char) ∈ a :: x' by
        rw [h.1]; exact List.mem_cons_self _ _) hx
    | c :: y' =>
      simp only [List.cons_append, List.cons.injEq] at h
      obtain ⟨hac, hrest⟩ := h
      have hx' : '/' ∉ x' := fun hm => hx (List.mem_cons_of_mem a hm)
      have hy' : '/' ∉ y' := fun hm => hy (List.mem_cons_of_mem c hm)
      obtain ⟨he, hr⟩ := ih y' rest1 rest2 hx' hy' hrest
      exact ⟨by rw [hac, he], hr⟩

/-- The slash-join is injective on lists of nonempty slash-free
components. -/
theorem joinC_inj : ∀ l1 l2 : List (List Char),
    (∀ x ∈ l1, x ≠ [] ∧ '/' ∉ x) → (∀ x ∈ l2, x ≠ [] ∧ '/' ∉ x) →
    joinC l1 = joinC l2 → l1 = l2 := by
  intro l1
  induction l1 with
  | nil =>
    intro l2 h1 h2 h
    match l2 with
    | [] => rfl
    | [y] =>
      exact absurd h.symm (by simpa [joinC] using (h2 y (by simp)).1)
    | y :: z :: zs =>
      rw [show joinC (y :: z :: zs) = y ++ '/' :: joinC (z :: zs) from rfl] at h
      simp [joinC] at h
  | cons x xs ih =>
    intro l2 h1 h2 h
    match xs, l2 with
    | [], [] =>
      exact absurd h (by simpa [joinC] using (h1 x (by simp)).1)
    | [], [y] => simpa [joinC] using h
    | [], y :: z :: zs =>
      rw [show joinC (y :: z :: zs) = y ++ '/' :: joinC (z :: zs) from rfl,
        show joinC [x] = x from rfl] at h
      have : '/' ∈ x := by
        rw [h]
        simp
      exact absurd this (h1 x (by simp)).2
    | x' :: xs', [] =>
      rw [show joinC (x :: x' :: xs') = x ++ '/' :: joinC (x' :: xs') from rfl] at h
      simp [joinC] at h
    | x' :: xs', [y] =>
      rw [show joinC (x :: x' :: xs') = x ++ '/' :: joinC (x' :: xs') from rfl,
        show joinC [y] = y from rfl] at h
      have : '/' ∈ y := by
        rw [← h]
        simp
      exact absurd this (h2 y (by simp)).2
    | x' :: xs', y :: z :: zs =>
      rw [show joinC (x :: x' :: xs') = x ++ '/' :: joinC (x' :: xs') from rfl,
        show joinC (y :: z :: zs) = y ++ '/' :: joinC (z :: zs) from rfl] at h
      obtain ⟨hxy, hj⟩ := split_at_slash x y _ _ (h1 x (by simp)).2 (h2 y (by simp)).2 h
      have htl : x' :: xs' = z :: zs :=
        ih (z :: zs) (fun a ha => h1 a (by simp [ha])) (fun a ha => h2 a (by simp [ha])) hj
      rw [hxy, htl]

/-- The three-attempt retry loop executes attempts `0..k` for some
`k ≤ 2`, sleeping 2s before attempt 1 and 4s before attempt 2. -/
theorem findFrom_shape (sr : Nat → SearchResp) (q : String) (anc : Nat) :
    ∃ k, k ≤ 2 ∧ (findFrom sr q anc 0 3).2 = searchEvs q anc k := by
  rcases h0 : sr 0 with (_ | p0) | _
  case ok.nil =>
    rcases h1 : sr 1 with (_ | p1) | _
    case ok.nil =>
      rcases h2 : sr 2 with (_ | p2) | _ <;>
        exact ⟨2, by omega, by simp [findFrom, h0, h1, h2, searchEvs, retryDelays]⟩
    case ok.cons => exact ⟨1, by omega, by simp [findFrom, h0, h1, searchEvs, retryDelays]⟩
    case fail =>
      rcases h2 : sr 2 with (_ | p2) | _ <;>
        exact ⟨2, by omega, by simp [findFrom, h0, h1, h2, searchEvs, retryDelays]⟩
  case ok.cons => exact ⟨0, by omega, by simp [findFrom, h0, searchEvs]⟩
  case fail =>
    rcases h1 : sr 1 with (_ | p1) | _
    case ok.nil =>
      rcases h2 : sr 2 with (_ | p2) | _ <;>
        exact ⟨2, by omega, by simp [findFrom, h0, h1, h2, searchEvs, retryDelays]⟩
    case ok.cons => exact ⟨1, by omega, by simp [findFrom, h0, h1, searchEvs, retryDelays]⟩
    case fail =>
      rcases h2 : sr 2 with (_ | p2) | _ <;>
        exact ⟨2, by omega, by simp [findFrom, h0, h1, h2, searchEvs, retryDelays]⟩

/-- When every attempt fails or finds nothing, the loop yields `none`. -/
theorem findFrom_none (sr : Nat → SearchResp) (q : String) (anc : Nat)
    (h : ∀ i, i < 3 → sr i = SearchResp.fail ∨ sr i = SearchResp.ok []) :
    (findFrom sr q anc 0 3).1 = none := by
  have h0 := h 0 (by omega)
  have h1 := h 1 (by omega)
  have h2 := h 2 (by omega)
  rcases h0 with h0 | h0 <;> rcases h1 with h1 | h1 <;> rcases h2 with h2 | h2 <;>
    simp [findFrom, h0, h1, h2]

/-- No search attempt trace contains a creation call. -/
theorem searchEvs_no_create (q : String) (anc : Nat) (k : Nat) (t : String) (a : Nat) :
    Ev.create t a ∉ searchEvs q anc k := by
  match k with
  | 0 => simp [searchEvs]
  | 1 => simp [searchEvs]
  | n + 2 => simp [searchEvs]

/-- Every branch of `createNewPage` first issues the POST: its trace is
the creation call followed by the fallback events. -/
theorem createNewPage_events_head (store : Store) (cfg : Config) (title content : String)
    (parentPageID : Option Nat) :
    ∃ tl, (createNewPage store cfg title content parentPageID).2 =
      Ev.create title (ancestorOf cfg parentPageID) :: tl := by
  rcases hc : store.create with pageId | code | ⟨msg, code⟩
  · exact ⟨[], by simp [createNewPage, hc]⟩
  · exact ⟨[], by simp [createNewPage, hc]⟩
  · by_cases hdup : isDuplicateTitleMsg msg
    · rcases hd0 : store.direct 0 with _ | p
      · rcases hd1 : store.direct 1 with _ | p
        · exact ⟨[Ev.directLookup title 0, Ev.sleep 3, Ev.directLookup title 1],
            by simp [createNewPage, hc, hdup, hd0, hd1]⟩
        · exact ⟨Ev.directLookup title 0 :: Ev.sleep 3 :: Ev.directLookup title 1 ::
              (updatePage store.update p.id title content p.version).2,
            by simp [createNewPage, hc, hdup, hd0, hd1]⟩
      · exact ⟨Ev.directLookup title 0 ::
            (updatePage store.update p.id title content p.version).2,
          by simp [createNewPage, hc, hdup, hd0]⟩
    · exact ⟨[], by simp [createNewPage, hc, hdup]⟩

/-! ## Claims -/

/-- Claim C3: for every title, content and parent id, the upsert first
searches for the suffixed title under the parent, retrying up to 3
attempts with delays 0s, 2s and 4s; if a page is found it issues exactly
one update with `version + 1` and no creation (a stale version is surfaced
as a failure with the store's message and status, not retried); only if no
page is found after all retries does it attempt creation. -/
theorem claim_C3 (store : Store) (cfg : Config) (title content : String)
    (parentPageID : Option Nat) :
    (∃ k, k ≤ 2 ∧ (findPageByTitle store.search cfg title parentPageID).2 =
        searchEvs (searchTitle cfg title) (ancestorOf cfg parentPageID) k)
    ∧ (∀ p, (findPageByTitle store.search cfg title parentPageID).1 = some p →
        (createPage store cfg title content parentPageID).2 =
          (findPageByTitle store.search cfg title parentPageID).2 ++
            [Ev.update p.id (p.version + 1)]
        ∧ (∀ m c, store.update p.id = UpdResp.err m c →
            (createPage store cfg title content parentPageID).1 =
              PubResult.failure m (StatusCode.num c)))
    ∧ ((findPageByTitle store.search cfg title parentPageID).1 = none →
        ∃ tl, (createPage store cfg title content parentPageID).2 =
          (findPageByTitle store.search cfg title parentPageID).2 ++
            Ev.create (searchTitle cfg title) (ancestorOf cfg parentPageID) :: tl)
    ∧ (∀ t a, Ev.create t a ∈ (createPage store cfg title content parentPageID).2 →
        (findPageByTitle store.search cfg title parentPageID).1 = none) := by
  obtain ⟨k, hk, hevs⟩ := findFrom_shape store.search (searchTitle cfg title)
    (ancestorOf cfg parentPageID)
  have hevs' : (findPageByTitle store.search cfg title parentPageID).2 =
      searchEvs (searchTitle cfg title) (ancestorOf cfg parentPageID) k := hevs
  refine ⟨⟨k, hk, hevs'⟩, ?_, ?_, ?_⟩
  · intro p hp
    constructor
    · simp [createPage, hp, updatePage]
    · intro m c hu
      simp [createPage, hp, updatePage, hu]
  · intro hnone
    obtain ⟨tl, htl⟩ := createNewPage_events_head store cfg (searchTitle cfg title)
      (banner ++ content) parentPageID
    exact ⟨tl, by simp [createPage, hnone, htl]⟩
  · intro t a hmem
    rcases hp : (findPageByTitle store.search cfg title parentPageID).1 with _ | p
    · rfl
    · exfalso
      rw [show (createPage store cfg title content parentPageID).2 =
            (findPageByTitle store.search cfg title parentPageID).2 ++
              [Ev.update p.id (p.version + 1)] by simp [createPage, hp, updatePage]] at hmem
      rw [hevs'] at hmem
      rcases List.mem_append.mp hmem with h | h
      · exact searchEvs_no_create _ _ _ _ _ h
      · simp at h

/-- Claim C3 witness: with the store that finds page 5 (version 7) on the
third attempt and rejects the update with a 409 conflict, the upsert
surfaces exactly that failure. -/
theorem claim_C3_witness :
    (createPage exStoreC3 exCfg "a.md" "c" none).1 =
      PubResult.failure "Version conflict" (StatusCode.num 409) := by
  have h := (claim_C3 exStoreC3 exCfg "a.md" "c" none).2.1 ⟨5, 7, "t"⟩ (by decide)
  exact h.2 "Version conflict" 409 (by decide)

/-- Claim C4: when creation fails with a duplicate-title class of error,
the resolver performs the direct by-title lookup; if it finds a page, the
result is the update call's result (the creation failure is not surfaced)
and no second lookup or delay happens; if it finds nothing, the resolver
sleeps the fixed 3s delay and retries the direct lookup exactly once more
(two lookup calls in total), and if that one finds a page an update is
issued and its result returned. -/
theorem claim_C4 (store : Store) (cfg : Config) (title content : String)
    (parentPageID : Option Nat) (msg : String) (code : Nat)
    (hc : store.create = CreateResp.err msg code)
    (hdup : isDuplicateTitleMsg msg = true) :
    (Ev.directLookup title 0 ∈ (createNewPage store cfg title content parentPageID).2)
    ∧ (∀ p, store.direct 0 = some p →
        (createNewPage store cfg title content parentPageID).1 =
          (updatePage store.update p.id title content p.version).1
        ∧ Ev.update p.id (p.version + 1) ∈ (createNewPage store cfg title content parentPageID).2
        ∧ Ev.sleep 3 ∉ (createNewPage store cfg title content parentPageID).2
        ∧ Ev.directLookup title 1 ∉ (createNewPage store cfg title content parentPageID).2)
    ∧ (store.direct 0 = none →
        Ev.sleep 3 ∈ (createNewPage store cfg title content parentPageID).2
        ∧ ((createNewPage store cfg title content parentPageID).2.count
              (Ev.directLookup title 0) = 1
           ∧ (createNewPage store cfg title content parentPageID).2.count
              (Ev.directLookup title 1) = 1)
        ∧ (∀ p, store.direct 1 = some p →
            (createNewPage store cfg title content parentPageID).1 =
              (updatePage store.update p.id title content p.version).1
            ∧ Ev.update p.id (p.version + 1) ∈
                (createNewPage store cfg title content parentPageID).2)) := by
  refine ⟨?_, ?_, ?_⟩
  · rcases hd0 : store.direct 0 with _ | p
    · rcases hd1 : store.direct 1 with _ | p <;>
        simp [createNewPage, hc, hdup, hd0, hd1, updatePage]
    · simp [createNewPage, hc, hdup, hd0, updatePage]
  · intro p hd0
    refine ⟨by simp [createNewPage, hc, hdup, hd0], ?_, ?_, ?_⟩ <;>
      simp [createNewPage, hc, hdup, hd0, updatePage]
  · intro hd0
    rcases hd1 : store.direct 1 with _ | p
    · refine ⟨by simp [createNewPage, hc, hdup, hd0, hd1], ?_, ?_⟩
      · constructor <;> simp [createNewPage, hc, hdup, hd0, hd1, List.count_cons]
      · intro p hp
        simp at hp
    · refine ⟨by simp [createNewPage, hc, hdup, hd0, hd1, updatePage], ?_, ?_⟩
      · constructor <;> simp [createNewPage, hc, hdup, hd0, hd1, updatePage, List.count_cons]
      · intro p' hp'
        have hpp : p = p' := by injection hp'
        subst hpp
        exact ⟨by simp [createNewPage, hc, hdup, hd0, hd1],
               by simp [createNewPage, hc, hdup, hd0, hd1, updatePage]⟩

/-- Claim C4 witness: duplicate-title failure, first direct lookup empty,
second finds page 9 (version 3); an update to version 4 is issued and its
success is returned instead of the creation failure. -/
theorem claim_C4_witness :
    (createNewPage exStoreC4 exCfg "a.md  SUF" "c" none).1 = PubResult.success 9 "updated"
    ∧ Ev.update 9 4 ∈ (createNewPage exStoreC4 exCfg "a.md  SUF" "c" none).2 := by
  have h := (claim_C4 exStoreC4 exCfg "a.md  SUF" "c" none
    "A page with this title already exists" 400 (by decide) (by decide)).2.2 (by decide)
  obtain ⟨-, -, h3⟩ := h
  have h9 := h3 ⟨9, 3, "t"⟩ (by decide)
  exact ⟨by simpa [updatePage, exStoreC4] using h9.1, h9.2⟩

/-- Claim C9: if every search attempt fails (non-200 or exception) or
finds nothing, `findPageByTitle` returns `none`, and the upsert proceeds
to the creation call rather than surfacing a search failure. -/
theorem claim_C9 (store : Store) (cfg : Config) (title content : String)
    (parentPageID : Option Nat)
    (h : ∀ i, i < maxRetries →
        store.search i = SearchResp.fail ∨ store.search i = SearchResp.ok []) :
    (findPageByTitle store.search cfg title parentPageID).1 = none
    ∧ Ev.create (searchTitle cfg title) (ancestorOf cfg parentPageID) ∈
        (createPage store cfg title content parentPageID).2 := by
  have hnone : (findPageByTitle store.search cfg title parentPageID).1 = none :=
    findFrom_none store.search _ _ h
  refine ⟨hnone, ?_⟩
  obtain ⟨tl, htl⟩ := createNewPage_events_head store cfg (searchTitle cfg title)
    (banner ++ content) parentPageID
  rw [show (createPage store cfg title content parentPageID).2 =
        (findPageByTitle store.search cfg title parentPageID).2 ++
          (createNewPage store cfg (searchTitle cfg title) (banner ++ content) parentPageID).2
      by simp [createPage, hnone]]
  rw [htl]
  simp

/-- `deletePages` never puts anything into its result list, whatever the
store answers. -/
theorem deletePages_fst_nil (delOk : Nat → Bool) (ids : List Nat) :
    (deletePages delOk ids).1 = [] := by
  induction ids with
  | nil => rfl
  | cons p ps ih => simp [deletePages, ih]

/-- `deletePages` issues one delete call per id, in order. -/
theorem deletePages_events (delOk : Nat → Bool) (ids : List Nat) :
    (deletePages delOk ids).2 = ids.map Ev.delete := by
  induction ids with
  | nil => rfl
  | cons p ps ih => simp [deletePages, ih]

/-- When every title fetch succeeds, the ids the orphan loop collects are
exactly the spec's `R \ E`: the pages whose recovered title is absent from
the expected set. -/
theorem orphanScan_eq_spec (cfg : Config) (expected : List String) (tOf : Nat → FetchResp)
    (titleOf : Nat → String) (pages : List Nat)
    (h : ∀ p ∈ pages, tOf p = FetchResp.ok (titleOf p)) :
    (orphanScan cfg expected tOf pages).1 = specOrphans cfg expected titleOf pages := by
  induction pages with
  | nil => rfl
  | cons p ps ih =>
    have hp := h p (by simp)
    have hps : ∀ q ∈ ps, tOf q = FetchResp.ok (titleOf q) := fun q hq => h q (by simp [hq])
    have ihs := ih hps
    by_cases hc : stripPattern cfg (titleOf p) ∈ expected
    · simp [orphanScan, specOrphans, hp, hc, List.elem_iff]
      simpa [specOrphans] using ihs
    · simp [orphanScan, specOrphans, hp, hc, List.elem_iff]
      simpa [specOrphans] using ihs

/-- The float guard in exact arithmetic: for a non-empty remote set,
`orphan_count / total_pages * 100 > 20` holds iff five times the orphan
count exceeds the total. -/
theorem ratio_gt_iff (oc tp : Nat) (h : 0 < tp) :
    ((oc : ℚ) / (tp : ℚ) * 100 > 20 ↔ 5 * oc > tp) := by
  rw [gt_iff_lt, div_mul_eq_mul_div, lt_div_iff₀ (by positivity)]
  have h2 : ((20 : ℚ) * tp < oc * 100) ↔ ((20 * tp : ℕ) < (oc * 100 : ℕ)) := by
    exact_mod_cast Iff.rfl
  rw [h2]
  omega

/-- Claim C1 (code bug): the reachable top level of `main.py` deletes
every managed remote page it finds and exits — unconditionally, before any
publish phase and without any orphan computation or error gating.  In
particular, with one remote page whose recovered title is in the expected
set (so the spec's orphan set is empty) and no publish having run, a
delete call is still issued for it.  The error-gated `cleanupOrphanPages`
call sits below `sys.exit(0)` and is unreachable. -/
theorem claim_C1_bug :
    (∀ delOk batches, (mainMigrationRun delOk batches).2 = (searchPages batches).map Ev.delete
      ∧ (mainMigrationRun delOk batches).1 = 0)
    ∧ specOrphans exCfg ["a.md"] (fun _ => "a.md  SUF") (searchPages exBatchesC1) = []
    ∧ (mainMigrationRun (fun _ => true) exBatchesC1).2 = [Ev.delete 42] := by
  refine ⟨fun delOk batches => ⟨?_, rfl⟩, ?_, ?_⟩
  · simp [mainMigrationRun, deletePages_events]
  · have hstrip : stripPattern exCfg "a.md  SUF" = "a.md" := by
      simp [stripPattern, exCfg, pyContains, pyStrip, pyRemoveAll, removeAllList, trimList,
        containsList, List.isPrefixOf]
    simp [specOrphans, searchPages, searchPagesGo, exBatchesC1, hstrip]
  · simp [mainMigrationRun, deletePages_events, searchPages, searchPagesGo, exBatchesC1]

/-- Claim C2 counterexample: four of five managed pages are expected and
page 5 is the single orphan (fraction exactly 20%, guard not tripped); the
store confirms no deletion (no 204), yet `cleanupOrphanPages` returns
`deleted_count = 1` — the identified count, not the count of rows the
store confirmed deleting. -/
theorem claim_C2_counterexample :
    ¬ (((orphanScan exCfg exExpectedC2 exTOfC2 (searchPages exBatchesC2)).1.length : ℚ) /
        ((searchPages exBatchesC2).length : ℚ) * 100 > 20)
    ∧ (cleanupOrphanPages exCfg exExpectedC2 exTOfC2 exDelOkC2 exBatchesC2).result.deleted_count = 1
    ∧ confirmedDeletions exDelOkC2
        (orphanScan exCfg exExpectedC2 exTOfC2 (searchPages exBatchesC2)).1 = 0 := by
  have hpages : searchPages exBatchesC2 = [1, 2, 3, 4, 5] := by decide
  have hscan : (orphanScan exCfg exExpectedC2 exTOfC2 [1, 2, 3, 4, 5]).1 = [5] := by decide
  have hfrac : ¬ (((1 : ℚ)) / ((5 : ℚ)) * 100 > 20) := by norm_num
  refine ⟨?_, ?_, ?_⟩
  · rw [hpages, hscan]
    simpa using hfrac
  · rw [show (cleanupOrphanPages exCfg exExpectedC2 exTOfC2 exDelOkC2 exBatchesC2) =
        { result := { deleted_count := 1,
                      orphans := (orphanScan exCfg exExpectedC2 exTOfC2 [1, 2, 3, 4, 5]).2,
                      skipped := some false, reason := none },
          events := (deletePages exDelOkC2 [5]).2,
          percentage := some (((1 : ℚ)) / ((5 : ℚ)) * 100) } from ?_]
    unfold cleanupOrphanPages
    rw [hpages]
    rw [if_neg (by decide)]
    rw [if_pos (by rw [hscan]; decide)]
    rw [if_neg (by rw [hscan]; simpa using hfrac)]
    rw [hscan]
    rfl
  · rw [hpages, hscan]
    decide

/-- Claim C2 amended: the guard and deletion behaviour hold as claimed —
above 20% the run is skipped with zero delete calls, at or below 20% the
delete calls are exactly the identified orphans (which, when every title
fetch succeeds, are exactly the pages of `R` whose recovered title is not
in `E`) — but the returned `deleted_count` is the number of identified
orphans (one delete call each), not the number of deletions the store
confirmed. -/
theorem claim_C2_amended (cfg : Config) (expected : List String) (tOf : Nat → FetchResp)
    (delOk : Nat → Bool) (batches : List BatchResp) (titleOf : Nat → String) :
    ((((orphanScan cfg expected tOf (searchPages batches)).1.length : ℚ) /
        ((searchPages batches).length : ℚ) * 100 > 20) →
      (cleanupOrphanPages cfg expected tOf delOk batches).result.skipped = some true
      ∧ (cleanupOrphanPages cfg expected tOf delOk batches).result.deleted_count = 0
      ∧ (cleanupOrphanPages cfg expected tOf delOk batches).events = [])
    ∧ (¬ (((orphanScan cfg expected tOf (searchPages batches)).1.length : ℚ) /
        ((searchPages batches).length : ℚ) * 100 > 20) →
      (cleanupOrphanPages cfg expected tOf delOk batches).events =
        (orphanScan cfg expected tOf (searchPages batches)).1.map Ev.delete
      ∧ (cleanupOrphanPages cfg expected tOf delOk batches).result.deleted_count =
        (orphanScan cfg expected tOf (searchPages batches)).1.length)
    ∧ ((∀ p ∈ searchPages batches, tOf p = FetchResp.ok (titleOf p)) →
      (orphanScan cfg expected tOf (searchPages batches)).1 =
        specOrphans cfg expected titleOf (searchPages batches)) := by
  refine ⟨?_, ?_, fun h => orphanScan_eq_spec cfg expected tOf titleOf _ h⟩
  · intro hgt
    have hne : (searchPages batches).isEmpty = false := by
      rcases hp : searchPages batches with _ | ⟨a, l⟩
      · rw [hp] at hgt
        simp [orphanScan] at hgt
        norm_num at hgt
      · simp
    have hoc : 0 < (orphanScan cfg expected tOf (searchPages batches)).1.length := by
      by_contra hz
      push_neg at hz
      have h0 : (orphanScan cfg expected tOf (searchPages batches)).1.length = 0 := by omega
      rw [h0] at hgt
      norm_num at hgt
    unfold cleanupOrphanPages
    rw [if_neg (by simp [hne]), if_pos hoc, if_pos hgt]
    exact ⟨rfl, rfl, rfl⟩
  · intro hle
    rcases Nat.eq_zero_or_pos (orphanScan cfg expected tOf (searchPages batches)).1.length
      with hoc | hoc
    · have hnil : (orphanScan cfg expected tOf (searchPages batches)).1 = [] :=
        List.length_eq_zero.mp hoc
      by_cases hne : (searchPages batches).isEmpty
      · unfold cleanupOrphanPages
        rw [if_pos hne]
        simp [hnil]
      · unfold cleanupOrphanPages
        rw [if_neg hne, if_neg (by omega)]
        simp [hnil]
    · unfold cleanupOrphanPages
      have hne : ¬ (searchPages batches).isEmpty = true := by
        rcases hp : searchPages batches with _ | ⟨a, l⟩
        · rw [hp] at hoc
          simp [orphanScan] at hoc
        · simp
      rw [if_neg hne, if_pos hoc, if_neg hle]
      exact ⟨by simp [deletePages_events], rfl⟩

/-- Claim C2 witness: applying the amended theorem at the counterexample
input: the fraction is 20%, so the single delete call for page 5 is issued
and the identified count 1 is returned. -/
theorem claim_C2_witness :
    (cleanupOrphanPages exCfg exExpectedC2 exTOfC2 exDelOkC2 exBatchesC2).events =
      [Ev.delete 5]
    ∧ (cleanupOrphanPages exCfg exExpectedC2 exTOfC2 exDelOkC2 exBatchesC2).result.deleted_count
      = 1 := by
  have hpages : searchPages exBatchesC2 = [1, 2, 3, 4, 5] := by decide
  have hscan : (orphanScan exCfg exExpectedC2 exTOfC2 (searchPages exBatchesC2)).1 = [5] := by
    rw [hpages]; decide
  have h := (claim_C2_amended exCfg exExpectedC2 exTOfC2 exDelOkC2 exBatchesC2
    (fun _ => "")).2.1 (by rw [hscan, hpages]; norm_num)
  rw [hscan] at h
  exact ⟨by simpa using h.1, by simpa using h.2⟩

/-- Claim C8 (code bug): after a run in which the aggregator recorded one
successful creation, `_stats` holds `success_count = 1` and
`created_count = 1`, but the summary prints the module-level integers it
imported — frozen at 0 — for the successful, created and updated totals;
only the failed total (read through the aliased `publish_errors` list) is
exact. -/
theorem claim_C8_bug :
    (statsOfRun exRunC8).success_count = 1
    ∧ (statsOfRun exRunC8).created_count = 1
    ∧ (summaryReport (statsOfRun exRunC8)).successful = 0
    ∧ (summaryReport (statsOfRun exRunC8)).created = 0
    ∧ (summaryReport (statsOfRun exRunC8)).failed = (statsOfRun exRunC8).errors.length := by
  have hrun : exRunC8 =
      [PEv.upsertFile "a.md" none (PubResult.success 1 "created"),
       PEv.recordSuccess (some "created")] := by
    unfold exRunC8
    simp [pubTree, dirEvents, fileEvents, exUoC8, isMdFileEntry, isMdName, pyEndsWith,
      pyLower, entryName, canonicalTitle]
  rw [hrun]
  refine ⟨?_, ?_, ?_, ?_, ?_⟩ <;>
    simp [statsOfRun, applyStats, addSuccess, PublishStats.init, summaryReport,
      legacySuccessCount, legacyCreatedCount, legacyUpdatedCount]

/-- Claim C10: with zero managed pages found, `cleanupOrphanPages` returns
`deleted_count = 0` with an empty orphan list (and no `skipped` key), with
zero orphans identified it returns `deleted_count = 0`, an empty orphan
list and `skipped = False`; in both cases no delete call is issued and the
percentage guard is never computed — and whenever the guard is computed,
the remote set is non-empty, so the division cannot be by zero. -/
theorem claim_C10 (cfg : Config) (expected : List String) (tOf : Nat → FetchResp)
    (delOk : Nat → Bool) (batches : List BatchResp) :
    (searchPages batches = [] →
      cleanupOrphanPages cfg expected tOf delOk batches =
        { result := { deleted_count := 0, orphans := [], skipped := none, reason := none },
          events := [], percentage := none })
    ∧ ((orphanScan cfg expected tOf (searchPages batches)).1 = [] → searchPages batches ≠ [] →
      cleanupOrphanPages cfg expected tOf delOk batches =
        { result := { deleted_count := 0, orphans := [], skipped := some false, reason := none },
          events := [], percentage := none })
    ∧ (∀ q, (cleanupOrphanPages cfg expected tOf delOk batches).percentage = some q →
        0 < (searchPages batches).length
        ∧ q = ((orphanScan cfg expected tOf (searchPages batches)).1.length : ℚ) /
            ((searchPages batches).length : ℚ) * 100) := by
  refine ⟨?_, ?_, ?_⟩
  · intro hp
    unfold cleanupOrphanPages
    rw [if_pos (by simp [hp])]
  · intro hz hne
    unfold cleanupOrphanPages
    rw [if_neg (by simp [List.isEmpty_iff, hne]), if_neg (by simp [hz])]
  · intro q hq
    have hne : ¬ (searchPages batches).isEmpty = true := by
      by_contra hyes
      rw [List.isEmpty_iff] at hyes
      unfold cleanupOrphanPages at hq
      rw [if_pos (by simp [hyes])] at hq
      simp at hq
    have hlen : 0 < (searchPages batches).length := by
      rcases hp : searchPages batches with _ | ⟨a, l⟩
      · exact absurd (by simp [hp]) hne
      · simp
    refine ⟨hlen, ?_⟩
    unfold cleanupOrphanPages at hq
    rw [if_neg hne] at hq
    by_cases hoc : 0 < (orphanScan cfg expected tOf (searchPages batches)).1.length
    · rw [if_pos hoc] at hq
      by_cases hgt : ((orphanScan cfg expected tOf (searchPages batches)).1.length : ℚ) /
          ((searchPages batches).length : ℚ) * 100 > 20
      · rw [if_pos hgt] at hq
        simpa using hq.symm
      · rw [if_neg hgt] at hq
        simpa using hq.symm
    · rw [if_neg hoc] at hq
      simp at hq

/-- Claim C10 witness: an empty remote set yields the bare no-op dict, and
a single remote page matching the expected set yields the zero-orphan
no-op with `skipped = False`; neither computes the percentage. -/
theorem claim_C10_witness :
    cleanupOrphanPages exCfg ["a"] exTOfC10 (fun _ => true) [] =
      { result := { deleted_count := 0, orphans := [], skipped := none, reason := none },
        events := [], percentage := none }
    ∧ cleanupOrphanPages exCfg ["a"] exTOfC10 (fun _ => true) [BatchResp.ok [7] false] =
      { result := { deleted_count := 0, orphans := [], skipped := some false, reason := none },
        events := [], percentage := none } := by
  constructor
  · exact (claim_C10 exCfg ["a"] exTOfC10 (fun _ => true) []).1 (by decide)
  · exact (claim_C10 exCfg ["a"] exTOfC10 (fun _ => true) [BatchResp.ok [7] false]).2.1
      (by decide) (by decide)

/-- Claim C7: two distinct local entries under the publish root — given
by their distinct relative paths, i.e. distinct component lists, where
each component is a filesystem name (nonempty and containing no `/`) —
never canonicalize to the same title. -/
theorem claim_C7 (p q : List String)
    (hp : ∀ s ∈ p, s ≠ "" ∧ '/' ∉ s.data)
    (hq : ∀ s ∈ q, s ≠ "" ∧ '/' ∉ s.data)
    (hne : p ≠ q) : canonicalTitle p ≠ canonicalTitle q := by
  intro h
  apply hne
  have hdata : joinC (p.map String.data) = joinC (q.map String.data) := by
    rw [← canonicalTitle_data, ← canonicalTitle_data, h]
  have hvalid : ∀ (l : List String), (∀ s ∈ l, s ≠ "" ∧ '/' ∉ s.data) →
      ∀ x ∈ l.map String.data, x ≠ [] ∧ '/' ∉ x := by
    intro l hl x hx
    obtain ⟨s, hs, rfl⟩ := List.mem_map.mp hx
    refine ⟨fun hnil => (hl s hs).1 (String.ext (by simp [hnil])), (hl s hs).2⟩
  have hmap : p.map String.data = q.map String.data :=
    joinC_inj _ _ (hvalid p hp) (hvalid q hq) hdata
  exact List.map_injective_iff.mpr (fun a b hab => String.ext hab) hmap

/-- Claim C7 witness: the same file name in two different directories
yields two different canonical titles. -/
theorem claim_C7_witness :
    canonicalTitle ["docs", "a.md"] ≠ canonicalTitle ["api", "a.md"] :=
  claim_C7 ["docs", "a.md"] ["api", "a.md"] (by decide) (by decide) (by decide)

/-- The recursive part of the walk emits, for every descended directory,
exactly the titles that directory's visit lists. -/
theorem walkRecurse_eq (pre : List String) (cs : List FsNode) :
    walkRecurse pre cs = ((visitedChildren pre cs).map
      (fun v => listedDirTitles v.1 v.2 ++ listedMdTitles v.1 v.2)).flatten := by
  match cs with
  | [] => simp [walkRecurse, visitedChildren]
  | FsNode.dir n sub :: cs' =>
    have ih1 := walkRecurse_eq (pre ++ [n]) sub
    have ih2 := walkRecurse_eq pre cs'
    simp [walkRecurse, visitedChildren, walkVisit, ih1, ih2]
  | FsNode.file n :: cs' =>
    have ih2 := walkRecurse_eq pre cs'
    simp [walkRecurse, visitedChildren, ih2]
  | FsNode.symlinkDir n :: cs' =>
    have ih2 := walkRecurse_eq pre cs'
    simp [walkRecurse, visitedChildren, ih2]
  | FsNode.symlinkFile n :: cs' =>
    have ih2 := walkRecurse_eq pre cs'
    simp [walkRecurse, visitedChildren, ih2]

/-- Claim C6 counterexample: a root containing one symlink whose target is
a directory.  `os.walk` lists it in `dirs` (`os.path.isdir` follows
symlinks), so `buildExpectedPagesSet` adds its title — but the claim's set
(symlinks never added) is empty. -/
theorem claim_C6_counterexample :
    buildExpectedPagesSet [FsNode.symlinkDir "s"] = ["s"]
    ∧ claimExpectedSet [FsNode.symlinkDir "s"] = [] := by
  constructor
  · simp [buildExpectedPagesSet, walkVisit, walkRecurse, listedDirTitles, listedMdTitles,
      isWalkDir, isWalkFile, fsName, canonicalTitle]
  · simp [claimExpectedSet, claimGo]

/-- Claim C6 amended: the expected page set built from the publish root is
exactly the titles listed by the `os.walk` traversal: for every visited
directory (the root and, recursively, the real directories beneath it —
symlinked directories are listed but not descended), the titles of its
directory-like entries (directories and symlinks to directories, including
empty ones) and of its file-like entries (plain files and symlinks to
files) whose name ends in the markdown extension case-insensitively;
non-markdown file entries are not added. -/
theorem claim_C6_amended (root : List FsNode) :
    buildExpectedPagesSet root = listedExpectedSet root := by
  unfold buildExpectedPagesSet listedExpectedSet visitedDirs
  rw [walkVisit, walkRecurse_eq]
  simp

/-- Shape of `allTitles` on a directory head. -/
theorem allTitles_cons_dir (pre : List String) (n : String) (sub es : List PEntry) :
    allTitles pre (PEntry.dir n sub :: es) =
      canonicalTitle (pre ++ [n]) :: (allTitles (pre ++ [n]) sub ++ allTitles pre es) := by
  simp [allTitles]

/-- Shape of `allTitles` on a file head. -/
theorem allTitles_cons_file (pre : List String) (n : String) (es : List PEntry) :
    allTitles pre (PEntry.file n :: es) =
      canonicalTitle (pre ++ [n]) :: allTitles pre es := by
  simp [allTitles]

/-- The title of a directory entry of a forest is among the forest's
titles. -/
theorem mem_allTitles_of_mem (pre : List String) (name : String) (sub : List PEntry) :
    ∀ cs : List PEntry, PEntry.dir name sub ∈ cs →
      canonicalTitle (pre ++ [name]) ∈ allTitles pre cs := by
  intro cs
  induction cs with
  | nil => simp
  | cons c es ih =>
    intro hmem
    rcases List.mem_cons.mp hmem with hc | hc
    · subst hc
      rw [allTitles_cons_dir]
      simp
    · match c with
      | PEntry.dir n' sub' =>
        rw [allTitles_cons_dir]
        simp only [List.mem_cons, List.mem_append]
        exact Or.inr (Or.inr (ih hc))
      | PEntry.file n' =>
        rw [allTitles_cons_file]
        exact List.mem_cons_of_mem _ (ih hc)

/-- The subtree titles of a directory entry are among the forest's
titles. -/
theorem subtree_subset_allTitles (pre : List String) (name : String) (sub : List PEntry) :
    ∀ cs : List PEntry, PEntry.dir name sub ∈ cs →
      ∀ s ∈ allTitles (pre ++ [name]) sub, s ∈ allTitles pre cs := by
  intro cs
  induction cs with
  | nil => simp
  | cons c es ih =>
    intro hmem s hs
    rcases List.mem_cons.mp hmem with hc | hc
    · subst hc
      rw [allTitles_cons_dir]
      simp only [List.mem_cons, List.mem_append]
      exact Or.inr (Or.inl hs)
    · match c with
      | PEntry.dir n' sub' =>
        rw [allTitles_cons_dir]
        simp only [List.mem_cons, List.mem_append]
        exact Or.inr (Or.inr (ih hc s hs))
      | PEntry.file n' =>
        rw [allTitles_cons_file]
        exact List.mem_cons_of_mem _ (ih hc s hs)

/-- The folder's own file titles are among the forest's titles. -/
theorem levelFileTitles_subset (pre : List String) :
    ∀ cs : List PEntry, ∀ s ∈ levelFileTitles pre cs, s ∈ allTitles pre cs := by
  intro cs
  induction cs with
  | nil => simp [levelFileTitles]
  | cons c es ih =>
    intro s hs
    match c with
    | PEntry.dir n' sub' =>
      simp only [levelFileTitles, isMdFileEntry] at hs
      rw [allTitles_cons_dir]
      simp only [List.mem_cons, List.mem_append]
      exact Or.inr (Or.inr (ih s (by simpa using hs)))
    | PEntry.file n' =>
      simp only [levelFileTitles, isMdFileEntry, entryName] at hs
      rw [allTitles_cons_file]
      by_cases hmd : isMdName n'
      · rw [if_pos (by simpa using hmd)] at hs
        rcases List.mem_append.mp hs with h | h
        · simp only [List.mem_singleton] at h
          simp [h]
        · exact List.mem_cons_of_mem _ (ih s h)
      · rw [if_neg (by simpa using hmd), List.nil_append] at hs
        exact List.mem_cons_of_mem _ (ih s hs)

/-- A successful-upsert or failed-upsert match on a title implies the
event touches that title. -/
theorem isUpsertOf_touch (t : String) (e : PEv) :
    isUpsertOf t e = true → touchesTitle t e = true := by
  cases e <;> simp [isUpsertOf, touchesTitle]

/-- A directory-upsert match implies the event touches the title. -/
theorem isDirUpsertOf_touch (t : String) (e : PEv) :
    isDirUpsertOf t e = true → touchesTitle t e = true := by
  cases e <;> simp [isDirUpsertOf, touchesTitle]

/-- A directory-error match implies the event touches the title. -/
theorem isDirErrOf_touch (t : String) (e : PEv) :
    isDirErrOf t e = true → touchesTitle t e = true := by
  cases e <;> simp [isDirErrOf, touchesTitle] <;> intro h _ <;> exact h

/-- Every event phase 2 emits mentions only a markdown-file title of the
folder itself. -/
theorem fileEvents_touch (uo : String → PubResult) (pre : List String) (parent : Option Nat)
    (cs : List PEntry) :
    ∀ e ∈ fileEvents uo pre parent cs, ∀ t, touchesTitle t e = true →
      t ∈ levelFileTitles pre cs := by
  induction cs with
  | nil => simp [fileEvents]
  | cons c es ih =>
    intro e he t ht
    match c with
    | PEntry.dir n' sub' =>
      have he' : e ∈ fileEvents uo pre parent es := by
        simpa [fileEvents, isMdFileEntry] using he
      have hmem := ih e he' t ht
      simpa [levelFileTitles, isMdFileEntry] using hmem
    | PEntry.file n' =>
      by_cases hmd : isMdName n'
      · rcases huo : uo (canonicalTitle (pre ++ [n'])) with ⟨pid, op⟩ | ⟨m, sc⟩
        · have he' : e = PEv.upsertFile (canonicalTitle (pre ++ [n'])) parent
              (PubResult.success pid op)
              ∨ e = PEv.recordSuccess (some op) ∨ e ∈ fileEvents uo pre parent es := by
            simpa [fileEvents, isMdFileEntry, entryName, hmd, huo] using he
          rcases he' with rfl | rfl | he'
          · have htt : canonicalTitle (pre ++ [n']) = t := by
              simpa [touchesTitle] using ht
            simp [levelFileTitles, isMdFileEntry, entryName, hmd, htt]
          · simp [touchesTitle] at ht
          · have hmem := ih e he' t ht
            simp only [levelFileTitles, isMdFileEntry, entryName, hmd, if_pos]
            exact List.mem_append.mpr (Or.inr hmem)
        · have he' : e = PEv.upsertFile (canonicalTitle (pre ++ [n'])) parent
              (PubResult.failure m sc)
              ∨ e = PEv.recordError ⟨canonicalTitle (pre ++ [n']), "file", m, sc⟩
              ∨ e ∈ fileEvents uo pre parent es := by
            simpa [fileEvents, isMdFileEntry, entryName, hmd, huo] using he
          rcases he' with rfl | rfl | he'
          · have htt : canonicalTitle (pre ++ [n']) = t := by
              simpa [touchesTitle] using ht
            simp [levelFileTitles, isMdFileEntry, entryName, hmd, htt]
          · have htt : canonicalTitle (pre ++ [n']) = t := by
              simpa [touchesTitle] using ht
            simp [levelFileTitles, isMdFileEntry, entryName, hmd, htt]
          · have hmem := ih e he' t ht
            simp only [levelFileTitles, isMdFileEntry, entryName, hmd, if_pos]
            exact List.mem_append.mpr (Or.inr hmem)
      · have he' : e ∈ fileEvents uo pre parent es := by
          simpa [fileEvents, isMdFileEntry, entryName, hmd] using he
        have hmem := ih e he' t ht
        simpa [levelFileTitles, isMdFileEntry, entryName, hmd] using hmem

/-- Every event phase 1 emits mentions only a title of the forest (the
directory containers it upserts, the errors it records, and everything the
recursive calls emit). -/
theorem dirEvents_touch (uo : String → PubResult) (pre : List String) (parent : Option Nat)
    (cs : List PEntry) :
    ∀ e ∈ dirEvents uo pre parent cs, ∀ t, touchesTitle t e = true →
      t ∈ allTitles pre cs := by
  match cs with
  | [] => simp [dirEvents]
  | PEntry.dir n sub :: es =>
    intro e he t ht
    rcases huo : uo (canonicalTitle (pre ++ [n])) with ⟨pid, op⟩ | ⟨m, sc⟩
    · have he' : e = PEv.upsertDir (canonicalTitle (pre ++ [n])) parent
          (PubResult.success pid op)
          ∨ e = PEv.recordSuccess (some op)
          ∨ e ∈ pubTree uo (pre ++ [n]) (some pid) sub
          ∨ e ∈ dirEvents uo pre parent es := by
        have hunfold : dirEvents uo pre parent (PEntry.dir n sub :: es) =
            (PEv.upsertDir (canonicalTitle (pre ++ [n])) parent (PubResult.success pid op) ::
              PEv.recordSuccess (some op) :: pubTree uo (pre ++ [n]) (some pid) sub)
            ++ dirEvents uo pre parent es := by
          simp [dirEvents, huo]
        rw [hunfold] at he
        simpa using he
      rcases he' with rfl | rfl | he' | he'
      · have htt : canonicalTitle (pre ++ [n]) = t := by
          simpa [touchesTitle] using ht
        rw [allTitles_cons_dir, ← htt]
        simp
      · simp [touchesTitle] at ht
      · have hsubt : t ∈ allTitles (pre ++ [n]) sub := by
          have hps : pubTree uo (pre ++ [n]) (some pid) sub =
              dirEvents uo (pre ++ [n]) (some pid) sub
              ++ fileEvents uo (pre ++ [n]) (some pid) sub := by
            simp [pubTree]
          rw [hps] at he'
          rcases List.mem_append.mp he' with hd | hf
          · exact dirEvents_touch uo (pre ++ [n]) (some pid) sub e hd t ht
          · exact levelFileTitles_subset (pre ++ [n]) sub t
              (fileEvents_touch uo (pre ++ [n]) (some pid) sub e hf t ht)
        rw [allTitles_cons_dir]
        simp only [List.mem_cons, List.mem_append]
        exact Or.inr (Or.inl hsubt)
      · have := dirEvents_touch uo pre parent es e he' t ht
        rw [allTitles_cons_dir]
        simp only [List.mem_cons, List.mem_append]
        exact Or.inr (Or.inr this)
    · have he' : e = PEv.upsertDir (canonicalTitle (pre ++ [n])) parent
          (PubResult.failure m sc)
          ∨ e = PEv.recordError ⟨canonicalTitle (pre ++ [n]), "directory", m, sc⟩
          ∨ e ∈ dirEvents uo pre parent es := by
        have hunfold : dirEvents uo pre parent (PEntry.dir n sub :: es) =
            [PEv.upsertDir (canonicalTitle (pre ++ [n])) parent (PubResult.failure m sc),
             PEv.recordError ⟨canonicalTitle (pre ++ [n]), "directory", m, sc⟩]
            ++ dirEvents uo pre parent es := by
          simp [dirEvents, huo]
        rw [hunfold] at he
        simpa using he
      rcases he' with rfl | rfl | he'
      · have htt : canonicalTitle (pre ++ [n]) = t := by
          simpa [touchesTitle] using ht
        rw [allTitles_cons_dir, ← htt]
        simp
      · have htt : canonicalTitle (pre ++ [n]) = t := by
          simpa [touchesTitle] using ht
        rw [allTitles_cons_dir, ← htt]
        simp
      · have := dirEvents_touch uo pre parent es e he' t ht
        rw [allTitles_cons_dir]
        simp only [List.mem_cons, List.mem_append]
        exact Or.inr (Or.inr this)
  | PEntry.file n :: es =>
    intro e he t ht
    have he' : e ∈ dirEvents uo pre parent es := by
      simpa [dirEvents] using he
    have := dirEvents_touch uo pre parent es e he' t ht
    rw [allTitles_cons_file]
    exact List.mem_cons_of_mem _ this

/-- Every event of a publish run mentions only a title of the forest it
publishes. -/
theorem pubTree_touch (uo : String → PubResult) (pre : List String) (parent : Option Nat)
    (cs : List PEntry) :
    ∀ e ∈ pubTree uo pre parent cs, ∀ t, touchesTitle t e = true →
      t ∈ allTitles pre cs := by
  intro e he t ht
  have hps : pubTree uo pre parent cs =
      dirEvents uo pre parent cs ++ fileEvents uo pre parent cs := by
    simp [pubTree]
  rw [hps] at he
  rcases List.mem_append.mp he with hd | hf
  · exact dirEvents_touch uo pre parent cs e hd t ht
  · exact levelFileTitles_subset pre cs t (fileEvents_touch uo pre parent cs e hf t ht)

/-- A predicate implying a touch of a title absent from the forest counts
zero over the phase-1 trace. -/
theorem dirEvents_countP_zero (uo : String → PubResult) (pre : List String)
    (parent : Option Nat) (cs : List PEntry) (t : String) (ht : t ∉ allTitles pre cs)
    (p : PEv → Bool) (hp : ∀ e, p e = true → touchesTitle t e = true) :
    (dirEvents uo pre parent cs).countP p = 0 :=
  List.countP_eq_zero.mpr fun e he hpe => ht (dirEvents_touch uo pre parent cs e he t (hp e hpe))

/-- A predicate implying a touch of a title absent from the forest counts
zero over the whole run trace. -/
theorem pubTree_countP_zero (uo : String → PubResult) (pre : List String)
    (parent : Option Nat) (cs : List PEntry) (t : String) (ht : t ∉ allTitles pre cs)
    (p : PEv → Bool) (hp : ∀ e, p e = true → touchesTitle t e = true) :
    (pubTree uo pre parent cs).countP p = 0 :=
  List.countP_eq_zero.mpr fun e he hpe => ht (pubTree_touch uo pre parent cs e he t (hp e hpe))

/-- Phase 2 never emits a directory-container upsert event. -/
theorem fileEvents_no_dirUpsert (uo : String → PubResult) (pre : List String)
    (parent : Option Nat) (cs : List PEntry) (t : String) :
    (fileEvents uo pre parent cs).countP (isDirUpsertOf t) = 0 := by
  refine List.countP_eq_zero.mpr ?_
  induction cs with
  | nil => simp [fileEvents]
  | cons c es ih =>
    intro e he
    match c with
    | PEntry.dir n' sub' =>
      exact ih e (by simpa [fileEvents, isMdFileEntry] using he)
    | PEntry.file n' =>
      by_cases hmd : isMdName n'
      · rcases huo : uo (canonicalTitle (pre ++ [n'])) with ⟨pid, op⟩ | ⟨m, sc⟩
        · have he' : e = PEv.upsertFile (canonicalTitle (pre ++ [n'])) parent
              (PubResult.success pid op)
              ∨ e = PEv.recordSuccess (some op) ∨ e ∈ fileEvents uo pre parent es := by
            simpa [fileEvents, isMdFileEntry, entryName, hmd, huo] using he
          rcases he' with rfl | rfl | he'
          · simp [isDirUpsertOf]
          · simp [isDirUpsertOf]
          · exact ih e he'
        · have he' : e = PEv.upsertFile (canonicalTitle (pre ++ [n'])) parent
              (PubResult.failure m sc)
              ∨ e = PEv.recordError ⟨canonicalTitle (pre ++ [n']), "file", m, sc⟩
              ∨ e ∈ fileEvents uo pre parent es := by
            simpa [fileEvents, isMdFileEntry, entryName, hmd, huo] using he
          rcases he' with rfl | rfl | he'
          · simp [isDirUpsertOf]
          · simp [isDirUpsertOf]
          · exact ih e he'
      · exact ih e (by simpa [fileEvents, isMdFileEntry, entryName, hmd] using he)

/-- Phase 2 records errors with kind `'file'`, never `'directory'`. -/
theorem fileEvents_no_dirErr (uo : String → PubResult) (pre : List String)
    (parent : Option Nat) (cs : List PEntry) (t : String) :
    (fileEvents uo pre parent cs).countP (isDirErrOf t) = 0 := by
  refine List.countP_eq_zero.mpr ?_
  induction cs with
  | nil => simp [fileEvents]
  | cons c es ih =>
    intro e he
    match c with
    | PEntry.dir n' sub' =>
      exact ih e (by simpa [fileEvents, isMdFileEntry] using he)
    | PEntry.file n' =>
      by_cases hmd : isMdName n'
      · rcases huo : uo (canonicalTitle (pre ++ [n'])) with ⟨pid, op⟩ | ⟨m, sc⟩
        · have he' : e = PEv.upsertFile (canonicalTitle (pre ++ [n'])) parent
              (PubResult.success pid op)
              ∨ e = PEv.recordSuccess (some op) ∨ e ∈ fileEvents uo pre parent es := by
            simpa [fileEvents, isMdFileEntry, entryName, hmd, huo] using he
          rcases he' with rfl | rfl | he'
          · simp [isDirErrOf]
          · simp [isDirErrOf]
          · exact ih e he'
        · have he' : e = PEv.upsertFile (canonicalTitle (pre ++ [n'])) parent
              (PubResult.failure m sc)
              ∨ e = PEv.recordError ⟨canonicalTitle (pre ++ [n']), "file", m, sc⟩
              ∨ e ∈ fileEvents uo pre parent es := by
            simpa [fileEvents, isMdFileEntry, entryName, hmd, huo] using he
          rcases he' with rfl | rfl | he'
          · simp [isDirErrOf]
          · simp [isDirErrOf]
          · exact ih e he'
      · exact ih e (by simpa [fileEvents, isMdFileEntry, entryName, hmd] using he)

/-- Every directory entry of the folder gets exactly one container-upsert
call, whatever the outcomes of the other entries: traversal always moves
on to the next sibling. -/
theorem dirEvents_dirUpsert_count (uo : String → PubResult) (pre : List String)
    (parent : Option Nat) (cs : List PEntry) (name : String) (sub : List PEntry)
    (hnd : (allTitles pre cs).Nodup) (hmem : PEntry.dir name sub ∈ cs) :
    (dirEvents uo pre parent cs).countP
      (isDirUpsertOf (canonicalTitle (pre ++ [name]))) = 1 := by
  match cs with
  | [] => simp at hmem
  | PEntry.dir n' sub' :: es =>
    rw [allTitles_cons_dir] at hnd
    obtain ⟨hhead, htail⟩ := List.nodup_cons.mp hnd
    obtain ⟨hndSub, hndEs, hdisj⟩ := List.nodup_append.mp htail
    by_cases ht' : canonicalTitle (pre ++ [n']) = canonicalTitle (pre ++ [name])
    · have hsubZ : ∀ pid, (pubTree uo (pre ++ [n']) pid sub').countP
          (isDirUpsertOf (canonicalTitle (pre ++ [name]))) = 0 := by
        intro pid
        exact pubTree_countP_zero uo (pre ++ [n']) pid sub' _
          (fun h => hhead (ht' ▸ List.mem_append.mpr (Or.inl h)))
          _ (isDirUpsertOf_touch _)
      have hesZ : (dirEvents uo pre parent es).countP
          (isDirUpsertOf (canonicalTitle (pre ++ [name]))) = 0 :=
        dirEvents_countP_zero uo pre parent es _
          (fun h => hhead (ht' ▸ List.mem_append.mpr (Or.inr h)))
          _ (isDirUpsertOf_touch _)
      rcases huo : uo (canonicalTitle (pre ++ [name])) with ⟨pid, op⟩ | ⟨m, sc⟩
      · simp [dirEvents, huo, List.countP_cons, List.countP_append, hsubZ (some pid), hesZ,
          isDirUpsertOf, ht']
      · simp [dirEvents, huo, List.countP_cons, List.countP_append, hesZ,
          isDirUpsertOf, ht']
    · have hmem' : PEntry.dir name sub ∈ es := by
        rcases List.mem_cons.mp hmem with heq | h
        · exact absurd (by rw [PEntry.dir.injEq] at heq; rw [heq.1]) ht'
        · exact h
      have htEs : canonicalTitle (pre ++ [name]) ∈ allTitles pre es :=
        mem_allTitles_of_mem pre name sub es hmem'
      have hsubZ : ∀ pid, (pubTree uo (pre ++ [n']) pid sub').countP
          (isDirUpsertOf (canonicalTitle (pre ++ [name]))) = 0 := by
        intro pid
        exact pubTree_countP_zero uo (pre ++ [n']) pid sub' _
          (fun h => (List.disjoint_right.mp hdisj htEs) h)
          _ (isDirUpsertOf_touch _)
      have hesC := dirEvents_dirUpsert_count uo pre parent es name sub hndEs hmem'
      rcases huo : uo (canonicalTitle (pre ++ [n'])) with ⟨pid, op⟩ | ⟨m, sc⟩
      · simp [dirEvents, huo, List.countP_cons, List.countP_append, hsubZ (some pid), hesC,
          isDirUpsertOf, ht']
      · simp [dirEvents, huo, List.countP_cons, List.countP_append, hesC,
          isDirUpsertOf, ht']
  | PEntry.file n' :: es =>
    rw [allTitles_cons_file] at hnd
    have hndEs := (List.nodup_cons.mp hnd).2
    have hmem' : PEntry.dir name sub ∈ es := by
      rcases List.mem_cons.mp hmem with heq | h
      · exact absurd heq (by simp)
      · exact h
    have := dirEvents_dirUpsert_count uo pre parent es name sub hndEs hmem'
    simpa [dirEvents] using this

/-- When the container upsert of a directory entry fails, phase 1 records
exactly one `'directory'` error for it. -/
theorem dirEvents_dirErr_count (uo : String → PubResult) (pre : List String)
    (parent : Option Nat) (cs : List PEntry) (name : String) (sub : List PEntry)
    (hnd : (allTitles pre cs).Nodup) (hmem : PEntry.dir name sub ∈ cs)
    (hfail : pubResultOk (uo (canonicalTitle (pre ++ [name]))) = false) :
    (dirEvents uo pre parent cs).countP
      (isDirErrOf (canonicalTitle (pre ++ [name]))) = 1 := by
  match cs with
  | [] => simp at hmem
  | PEntry.dir n' sub' :: es =>
    rw [allTitles_cons_dir] at hnd
    obtain ⟨hhead, htail⟩ := List.nodup_cons.mp hnd
    obtain ⟨hndSub, hndEs, hdisj⟩ := List.nodup_append.mp htail
    by_cases ht' : canonicalTitle (pre ++ [n']) = canonicalTitle (pre ++ [name])
    · have hesZ : (dirEvents uo pre parent es).countP
          (isDirErrOf (canonicalTitle (pre ++ [name]))) = 0 :=
        dirEvents_countP_zero uo pre parent es _
          (fun h => hhead (ht' ▸ List.mem_append.mpr (Or.inr h)))
          _ (isDirErrOf_touch _)
      rcases huo : uo (canonicalTitle (pre ++ [name])) with ⟨pid, op⟩ | ⟨m, sc⟩
      · rw [huo] at hfail
        simp [pubResultOk] at hfail
      · simp [dirEvents, huo, List.countP_cons, List.countP_append, hesZ,
          isDirErrOf, ht']
    · have hmem' : PEntry.dir name sub ∈ es := by
        rcases List.mem_cons.mp hmem with heq | h
        · exact absurd (by rw [PEntry.dir.injEq] at heq; rw [heq.1]) ht'
        · exact h
      have htEs : canonicalTitle (pre ++ [name]) ∈ allTitles pre es :=
        mem_allTitles_of_mem pre name sub es hmem'
      have hsubZ : ∀ pid, (pubTree uo (pre ++ [n']) pid sub').countP
          (isDirErrOf (canonicalTitle (pre ++ [name]))) = 0 := by
        intro pid
        exact pubTree_countP_zero uo (pre ++ [n']) pid sub' _
          (fun h => (List.disjoint_right.mp hdisj htEs) h)
          _ (isDirErrOf_touch _)
      have hesC := dirEvents_dirErr_count uo pre parent es name sub hndEs hmem' hfail
      rcases huo : uo (canonicalTitle (pre ++ [n'])) with ⟨pid, op⟩ | ⟨m, sc⟩
      · simp [dirEvents, huo, List.countP_cons, List.countP_append, hsubZ (some pid), hesC,
          isDirErrOf, ht']
      · simp [dirEvents, huo, List.countP_cons, List.countP_append, hesC,
          isDirErrOf, ht']
  | PEntry.file n' :: es =>
    rw [allTitles_cons_file] at hnd
    have hndEs := (List.nodup_cons.mp hnd).2
    have hmem' : PEntry.dir name sub ∈ es := by
      rcases List.mem_cons.mp hmem with heq | h
      · exact absurd heq (by simp)
      · exact h
    have := dirEvents_dirErr_count uo pre parent es name sub hndEs hmem' hfail
    simpa [dirEvents] using this

/-- When the container upsert of a directory entry fails, no entry of its
subtree is upserted at all. -/
theorem dirEvents_subtree_zero (uo : String → PubResult) (pre : List String)
    (parent : Option Nat) (cs : List PEntry) (name : String) (sub : List PEntry)
    (hnd : (allTitles pre cs).Nodup) (hmem : PEntry.dir name sub ∈ cs)
    (hfail : pubResultOk (uo (canonicalTitle (pre ++ [name]))) = false)
    (s : String) (hs : s ∈ allTitles (pre ++ [name]) sub) :
    (dirEvents uo pre parent cs).countP (isUpsertOf s) = 0 := by
  match cs with
  | [] => simp at hmem
  | PEntry.dir n' sub' :: es =>
    rw [allTitles_cons_dir] at hnd
    obtain ⟨hhead, htail⟩ := List.nodup_cons.mp hnd
    obtain ⟨hndSub, hndEs, hdisj⟩ := List.nodup_append.mp htail
    rcases List.mem_cons.mp hmem with heq | hmem'
    · obtain ⟨hn, hsub⟩ := PEntry.dir.injEq .. ▸ heq
      subst hn
      subst hsub
      have hsne : canonicalTitle (pre ++ [name]) ≠ s :=
        fun h => hhead (h ▸ List.mem_append.mpr (Or.inl hs))
      have hesZ : (dirEvents uo pre parent es).countP (isUpsertOf s) = 0 :=
        dirEvents_countP_zero uo pre parent es s
          (fun h => (List.disjoint_left.mp hdisj hs) h)
          _ (isUpsertOf_touch _)
      rcases huo : uo (canonicalTitle (pre ++ [name])) with ⟨pid, op⟩ | ⟨m, sc⟩
      · rw [huo] at hfail
        simp [pubResultOk] at hfail
      · simp [dirEvents, huo, List.countP_cons, hesZ, isUpsertOf, hsne]
    · have hsEs : s ∈ allTitles pre es :=
        subtree_subset_allTitles pre name sub es hmem' s hs
      have hsne : canonicalTitle (pre ++ [n']) ≠ s :=
        fun h => hhead (h ▸ List.mem_append.mpr (Or.inr hsEs))
      have hsubZ : ∀ pid, (pubTree uo (pre ++ [n']) pid sub').countP (isUpsertOf s) = 0 := by
        intro pid
        exact pubTree_countP_zero uo (pre ++ [n']) pid sub' s
          (fun h => (List.disjoint_right.mp hdisj hsEs) h)
          _ (isUpsertOf_touch _)
      have hesC := dirEvents_subtree_zero uo pre parent es name sub hndEs hmem' hfail s hs
      rcases huo : uo (canonicalTitle (pre ++ [n'])) with ⟨pid, op⟩ | ⟨m, sc⟩
      · simp [dirEvents, huo, List.countP_cons, List.countP_append, hsubZ (some pid), hesC,
          isUpsertOf, hsne]
      · simp [dirEvents, huo, List.countP_cons, hesC, isUpsertOf, hsne]
  | PEntry.file n' :: es =>
    rw [allTitles_cons_file] at hnd
    have hndEs := (List.nodup_cons.mp hnd).2
    have hmem' : PEntry.dir name sub ∈ es := by
      rcases List.mem_cons.mp hmem with heq | h
      · exact absurd heq (by simp)
      · exact h
    have := dirEvents_subtree_zero uo pre parent es name sub hndEs hmem' hfail s hs
    simpa [dirEvents] using this

/-- Subtree titles of a directory entry never collide with the markdown
file titles of the folder itself. -/
theorem subtree_not_levelFile (pre : List String) (name : String) (sub : List PEntry)
    (cs : List PEntry) (hnd : (allTitles pre cs).Nodup) (hmem : PEntry.dir name sub ∈ cs)
    (s : String) (hs : s ∈ allTitles (pre ++ [name]) sub) :
    s ∉ levelFileTitles pre cs := by
  induction cs with
  | nil => simp at hmem
  | cons c es ih =>
    match c with
    | PEntry.dir n' sub' =>
      rw [allTitles_cons_dir] at hnd
      obtain ⟨hhead, htail⟩ := List.nodup_cons.mp hnd
      obtain ⟨hndSub, hndEs, hdisj⟩ := List.nodup_append.mp htail
      have hlev : levelFileTitles pre (PEntry.dir n' sub' :: es) = levelFileTitles pre es := by
        simp [levelFileTitles, isMdFileEntry]
      rw [hlev]
      rcases List.mem_cons.mp hmem with heq | hmem'
      · obtain ⟨hn, hsub⟩ := PEntry.dir.injEq .. ▸ heq
        subst hn
        subst hsub
        intro hlf
        exact (List.disjoint_left.mp hdisj hs) (levelFileTitles_subset pre es s hlf)
      · exact ih hndEs hmem'
    | PEntry.file n' =>
      rw [allTitles_cons_file] at hnd
      obtain ⟨hhead, hndEs⟩ := List.nodup_cons.mp hnd
      have hmem' : PEntry.dir name sub ∈ es := by
        rcases List.mem_cons.mp hmem with heq | h
        · exact absurd heq (by simp)
        · exact h
      have hsEs : s ∈ allTitles pre es :=
        subtree_subset_allTitles pre name sub es hmem' s hs
      intro hlf
      simp only [levelFileTitles, isMdFileEntry, entryName] at hlf
      rcases List.mem_append.mp hlf with h | h
      · by_cases hmd : isMdName n'
        · rw [if_pos (by simpa using hmd)] at h
          simp only [List.mem_singleton] at h
          exact hhead (h ▸ hsEs)
        · rw [if_neg (by simpa using hmd)] at h
          simp at h
      · exact ih hndEs hmem' h

/-- `takeWhile` passes over a prefix it wholly satisfies. -/
theorem takeWhile_append_all {α : Type} (P : α → Bool) (X Y : List α)
    (h : ∀ x ∈ X, P x = true) : (X ++ Y).takeWhile P = X ++ Y.takeWhile P := by
  induction X with
  | nil => simp
  | cons a X' ih =>
    have ha := h a (by simp)
    simp [List.takeWhile_cons, ha, ih (fun x hx => h x (by simp [hx]))]

/-- `takeWhile` never reaches past a failing element of the prefix. -/
theorem takeWhile_append_stop {α : Type} (P : α → Bool) : ∀ (X Y : List α),
    (∃ b ∈ X, P b = false) → (X ++ Y).takeWhile P = X.takeWhile P := by
  intro X
  induction X with
  | nil => simp
  | cons a X' ih =>
    intro Y hex
    by_cases ha : P a
    · have hex' : ∃ b ∈ X', P b = false := by
        rcases hex with ⟨b, hb, hPb⟩
        rcases List.mem_cons.mp hb with rfl | hb'
        · rw [ha] at hPb
          simp at hPb
        · exact ⟨b, hb', hPb⟩
      simp [List.takeWhile_cons, ha, ih Y hex']
    · have ha' : P a = false := by simpa using ha
      simp [List.takeWhile_cons, ha']

/-- Phase 1 always contains the container-upsert event of every directory
entry of the folder. -/
theorem dirEvents_exists_dirUpsert (uo : String → PubResult) (pre : List String)
    (parent : Option Nat) (cs : List PEntry) (name : String) (sub : List PEntry)
    (hmem : PEntry.dir name sub ∈ cs) :
    ∃ e ∈ dirEvents uo pre parent cs,
      isDirUpsertOf (canonicalTitle (pre ++ [name])) e = true := by
  induction cs with
  | nil => simp at hmem
  | cons c es ih =>
    match c with
    | PEntry.dir n' sub' =>
      by_cases ht' : canonicalTitle (pre ++ [n']) = canonicalTitle (pre ++ [name])
      · refine ⟨PEv.upsertDir (canonicalTitle (pre ++ [n'])) parent
          (uo (canonicalTitle (pre ++ [n']))), ?_, by simp [isDirUpsertOf, ht']⟩
        rcases huo : uo (canonicalTitle (pre ++ [n'])) with ⟨pid, op⟩ | ⟨m, sc⟩ <;>
          simp [dirEvents, huo]
      · have hmem' : PEntry.dir name sub ∈ es := by
          rcases List.mem_cons.mp hmem with heq | h
          · exact absurd (by rw [PEntry.dir.injEq] at heq; rw [heq.1]) ht'
          · exact h
        obtain ⟨e, he, hpe⟩ := ih hmem'
        refine ⟨e, ?_, hpe⟩
        rcases huo : uo (canonicalTitle (pre ++ [n'])) with ⟨pid, op⟩ | ⟨m, sc⟩ <;>
          simp [dirEvents, huo] <;> tauto
    | PEntry.file n' =>
      have hmem' : PEntry.dir name sub ∈ es := by
        rcases List.mem_cons.mp hmem with heq | h
        · exact absurd heq (by simp)
        · exact h
      obtain ⟨e, he, hpe⟩ := ih hmem'
      exact ⟨e, by simpa [dirEvents] using he, hpe⟩

/-- No upsert of an entry inside a directory's subtree appears before the
directory's own container-upsert call in the phase-1 trace. -/
theorem dirEvents_takeWhile_subtree (uo : String → PubResult) (pre : List String)
    (parent : Option Nat) (cs : List PEntry) (name : String) (sub : List PEntry)
    (hnd : (allTitles pre cs).Nodup) (hmem : PEntry.dir name sub ∈ cs)
    (s : String) (hs : s ∈ allTitles (pre ++ [name]) sub) :
    ∀ e ∈ (dirEvents uo pre parent cs).takeWhile
        (fun e => !(isDirUpsertOf (canonicalTitle (pre ++ [name])) e)),
      isUpsertOf s e = false := by
  match cs with
  | [] => simp [dirEvents]
  | PEntry.dir n' sub' :: es =>
    rw [allTitles_cons_dir] at hnd
    obtain ⟨hhead, htail⟩ := List.nodup_cons.mp hnd
    obtain ⟨hndSub, hndEs, hdisj⟩ := List.nodup_append.mp htail
    by_cases ht' : canonicalTitle (pre ++ [n']) = canonicalTitle (pre ++ [name])
    · intro e he
      rcases huo : uo (canonicalTitle (pre ++ [n'])) with ⟨pid, op⟩ | ⟨m, sc⟩
      · have hunfold : dirEvents uo pre parent (PEntry.dir n' sub' :: es) =
            PEv.upsertDir (canonicalTitle (pre ++ [n'])) parent (PubResult.success pid op) ::
              (PEv.recordSuccess (some op) :: pubTree uo (pre ++ [n']) (some pid) sub'
               ++ dirEvents uo pre parent es) := by
          simp [dirEvents, huo]
        rw [hunfold, List.takeWhile_cons] at he
        rw [if_neg (by simp [isDirUpsertOf, ht'])] at he
        simp at he
      · have hunfold : dirEvents uo pre parent (PEntry.dir n' sub' :: es) =
            PEv.upsertDir (canonicalTitle (pre ++ [n'])) parent (PubResult.failure m sc) ::
              (PEv.recordError ⟨canonicalTitle (pre ++ [n']), "directory", m, sc⟩ ::
               dirEvents uo pre parent es) := by
          simp [dirEvents, huo]
        rw [hunfold, List.takeWhile_cons] at he
        rw [if_neg (by simp [isDirUpsertOf, ht'])] at he
        simp at he
    · have hmem' : PEntry.dir name sub ∈ es := by
        rcases List.mem_cons.mp hmem with heq | h
        · exact absurd (by rw [PEntry.dir.injEq] at heq; rw [heq.1]) ht'
        · exact h
      have htEs : canonicalTitle (pre ++ [name]) ∈ allTitles pre es :=
        mem_allTitles_of_mem pre name sub es hmem'
      have hsEs : s ∈ allTitles pre es :=
        subtree_subset_allTitles pre name sub es hmem' s hs
      have hsne : canonicalTitle (pre ++ [n']) ≠ s :=
        fun h => hhead (h ▸ List.mem_append.mpr (Or.inr hsEs))
      have hih := dirEvents_takeWhile_subtree uo pre parent es name sub hndEs hmem' s hs
      rcases huo : uo (canonicalTitle (pre ++ [n'])) with ⟨pid, op⟩ | ⟨m, sc⟩
      · have hunfold : dirEvents uo pre parent (PEntry.dir n' sub' :: es) =
            (PEv.upsertDir (canonicalTitle (pre ++ [n'])) parent (PubResult.success pid op) ::
              PEv.recordSuccess (some op) :: pubTree uo (pre ++ [n']) (some pid) sub')
            ++ dirEvents uo pre parent es := by
          simp [dirEvents, huo]
        have hallP : ∀ x ∈ PEv.upsertDir (canonicalTitle (pre ++ [n'])) parent
              (PubResult.success pid op) ::
              PEv.recordSuccess (some op) :: pubTree uo (pre ++ [n']) (some pid) sub',
            (fun e => !(isDirUpsertOf (canonicalTitle (pre ++ [name])) e)) x = true := by
          intro x hx
          rcases List.mem_cons.mp hx with rfl | hx
          · simp [isDirUpsertOf, ht']
          rcases List.mem_cons.mp hx with rfl | hx
          · simp [isDirUpsertOf]
          · have hz : isDirUpsertOf (canonicalTitle (pre ++ [name])) x = false := by
              by_contra hb
              have hb' : isDirUpsertOf (canonicalTitle (pre ++ [name])) x = true := by
                simpa using hb
              have := pubTree_touch uo (pre ++ [n']) (some pid) sub' x hx _
                (isDirUpsertOf_touch _ _ hb')
              exact (List.disjoint_right.mp hdisj htEs) this
            simp [hz]
        intro e he
        rw [hunfold, takeWhile_append_all _ _ _ hallP] at he
        rcases List.mem_append.mp he with hb | hb
        · rcases List.mem_cons.mp hb with rfl | hb
          · simp [isUpsertOf, hsne]
          rcases List.mem_cons.mp hb with rfl | hb
          · simp [isUpsertOf]
          · by_contra hbu
            have hb' : isUpsertOf s e = true := by simpa using hbu
            have := pubTree_touch uo (pre ++ [n']) (some pid) sub' e hb _
              (isUpsertOf_touch _ _ hb')
            exact (List.disjoint_right.mp hdisj hsEs) this
        · exact hih e hb
      · have hunfold : dirEvents uo pre parent (PEntry.dir n' sub' :: es) =
            [PEv.upsertDir (canonicalTitle (pre ++ [n'])) parent (PubResult.failure m sc),
             PEv.recordError ⟨canonicalTitle (pre ++ [n']), "directory", m, sc⟩]
            ++ dirEvents uo pre parent es := by
          simp [dirEvents, huo]
        have hallP : ∀ x ∈ [PEv.upsertDir (canonicalTitle (pre ++ [n'])) parent
              (PubResult.failure m sc),
              PEv.recordError ⟨canonicalTitle (pre ++ [n']), "directory", m, sc⟩],
            (fun e => !(isDirUpsertOf (canonicalTitle (pre ++ [name])) e)) x = true := by
          intro x hx
          rcases List.mem_cons.mp hx with rfl | hx
          · simp [isDirUpsertOf, ht']
          rcases List.mem_cons.mp hx with rfl | hx
          · simp [isDirUpsertOf]
          · simp at hx
        intro e he
        rw [hunfold, takeWhile_append_all _ _ _ hallP] at he
        rcases List.mem_append.mp he with hb | hb
        · rcases List.mem_cons.mp hb with rfl | hb
          · simp [isUpsertOf, hsne]
          rcases List.mem_cons.mp hb with rfl | hb
          · simp [isUpsertOf]
          · simp at hb
        · exact hih e hb
  | PEntry.file n' :: es =>
    rw [allTitles_cons_file] at hnd
    have hndEs := (List.nodup_cons.mp hnd).2
    have hmem' : PEntry.dir name sub ∈ es := by
      rcases List.mem_cons.mp hmem with heq | h
      · exact absurd heq (by simp)
      · exact h
    have hih := dirEvents_takeWhile_subtree uo pre parent es name sub hndEs hmem' s hs
    intro e he
    exact hih e (by simpa [dirEvents] using he)

/-- Claim C5: in every publish call (an arbitrary subtree of the local
tree, with entry titles unique as the canonicalization guarantees), every
directory entry of the folder receives exactly one container-upsert call
(traversal always continues to the next sibling); when a directory's
container upsert fails, exactly one `'directory'` error is recorded for it
and no entry of its subtree is upserted at all; and no upsert of a child
directory or contained file of the subtree ever appears before the
directory's own container-upsert call in the trace. -/
theorem claim_C5 (uo : String → PubResult) (pre : List String) (parent : Option Nat)
    (children : List PEntry) (name : String) (sub : List PEntry)
    (hnd : (allTitles pre children).Nodup)
    (hmem : PEntry.dir name sub ∈ children) :
    ((pubTree uo pre parent children).countP
        (isDirUpsertOf (canonicalTitle (pre ++ [name]))) = 1)
    ∧ (pubResultOk (uo (canonicalTitle (pre ++ [name]))) = false →
        (pubTree uo pre parent children).countP
            (isDirErrOf (canonicalTitle (pre ++ [name]))) = 1
        ∧ ∀ s ∈ allTitles (pre ++ [name]) sub,
            (pubTree uo pre parent children).countP (isUpsertOf s) = 0)
    ∧ (∀ s ∈ allTitles (pre ++ [name]) sub,
        ∀ e ∈ (pubTree uo pre parent children).takeWhile
            (fun e => !(isDirUpsertOf (canonicalTitle (pre ++ [name])) e)),
          isUpsertOf s e = false) := by
  have hps : pubTree uo pre parent children =
      dirEvents uo pre parent children ++ fileEvents uo pre parent children := by
    simp [pubTree]
  refine ⟨?_, ?_, ?_⟩
  · rw [hps, List.countP_append,
      dirEvents_dirUpsert_count uo pre parent children name sub hnd hmem,
      fileEvents_no_dirUpsert]
  · intro hfail
    constructor
    · rw [hps, List.countP_append,
        dirEvents_dirErr_count uo pre parent children name sub hnd hmem hfail,
        fileEvents_no_dirErr]
    · intro s hs
      have hfz : (fileEvents uo pre parent children).countP (isUpsertOf s) = 0 :=
        List.countP_eq_zero.mpr fun e he hpe =>
          (subtree_not_levelFile pre name sub children hnd hmem s hs)
            (fileEvents_touch uo pre parent children e he s (isUpsertOf_touch s e (by simpa using hpe)))
      rw [hps, List.countP_append,
        dirEvents_subtree_zero uo pre parent children name sub hnd hmem hfail s hs, hfz]
  · intro s hs e he
    have hexP : ∃ b ∈ dirEvents uo pre parent children,
        (fun e => !(isDirUpsertOf (canonicalTitle (pre ++ [name])) e)) b = false := by
      obtain ⟨b, hb, hpb⟩ :=
        dirEvents_exists_dirUpsert uo pre parent children name sub hmem
      exact ⟨b, hb, by simp [hpb]⟩
    rw [hps, takeWhile_append_stop _ _ _ hexP] at he
    exact dirEvents_takeWhile_subtree uo pre parent children name sub hnd hmem s hs e he

/-- Claim C5 witness: with the container of `bad` failing, the run upserts
`bad` once, records one directory error for it, never upserts the
contained file `bad/x.md`, and still upserts the sibling `b` once. -/
theorem claim_C5_witness :
    (pubTree exUoC5 [] none exTreeC5).countP (isDirUpsertOf (canonicalTitle ["bad"])) = 1
    ∧ (pubTree exUoC5 [] none exTreeC5).countP (isDirErrOf (canonicalTitle ["bad"])) = 1
    ∧ (pubTree exUoC5 [] none exTreeC5).countP
        (isUpsertOf (canonicalTitle ["bad", "x.md"])) = 0
    ∧ (pubTree exUoC5 [] none exTreeC5).countP (isDirUpsertOf (canonicalTitle ["b"])) = 1 := by
  have hall : allTitles [] exTreeC5 =
      [canonicalTitle ["bad"], canonicalTitle ["bad", "x.md"], canonicalTitle ["b"]] := by
    simp [exTreeC5, allTitles, canonicalTitle]
  have hnd : (allTitles [] exTreeC5).Nodup := by
    rw [hall]
    decide
  have h1 := claim_C5 exUoC5 [] none exTreeC5 "bad" [PEntry.file "x.md"] hnd
    (by simp [exTreeC5])
  have h2 := claim_C5 exUoC5 [] none exTreeC5 "b" [] hnd (by simp [exTreeC5])
  have hfail : pubResultOk (exUoC5 (canonicalTitle ([] ++ ["bad"]))) = false := by decide
  have hsub : canonicalTitle ["bad", "x.md"] ∈ allTitles ([] ++ ["bad"]) [PEntry.file "x.md"] := by
    simp [allTitles, canonicalTitle]
  refine ⟨by simpa using h1.1, ?_, ?_, by simpa using h2.1⟩
  · have := (h1.2.1 hfail).1
    simpa using this
  · have := (h1.2.1 hfail).2 (canonicalTitle ["bad", "x.md"]) hsub
    simpa using this

/-- Claim C9 witness: with every search attempt failing, the upsert of
`"a.md"` returns `none` from the search and issues the creation call. -/
theorem claim_C9_witness :
    (findPageByTitle exStoreC9.search exCfg "a.md" none).1 = none
    ∧ Ev.create "a.md  SUF" 111 ∈ (createPage exStoreC9 exCfg "a.md" "c" none).2 := by
  have h := claim_C9 exStoreC9 exCfg "a.md" "c" none (fun i _ => Or.inl rfl)
  exact ⟨h.1, by simpa [searchTitle, ancestorOf, exCfg] using h.2⟩

end GCP
